import Mathlib

/-!
# Replicated policy cache of `manager_rethink.go`

A shallow embedding of the RethinkDB-backed policy manager: the wire codec
(`rdbToPolicy`, `rdbFromPolicy`), the bootstrap scan (`ColdStart`), the cache
reads (`Get`, `FindPoliciesForSubject`) and the per-event body of the change
feed loop in `Watch`.

Conventions.
* A Go pointer `*T` is an `Option T`; `none` is the nil pointer.
* A Go `error` is a `String`; `errors.New(err)` only attaches a stack trace and
  is the identity here.
* A Go slice is a `List`; the nil slice and the zero-length slice are both `[]`,
  and likewise the nil map and the empty map.
* A Go `map[string]V` is an association list that the operations keep free of
  duplicate keys; the builtin operations are `mapGet`, `mapSet`, `mapDelete`.
* A run-time panic is the `Except.error` outcome of a `Panic`-typed result.
* The condition objects, their JSON codec and the matching predicate live in
  other files of the package and are parameters of the definitions.
-/

namespace Ladon

/-- Go `error` values, identified with their message. -/
abbrev Error := String

/-- The bytes of a `json.RawMessage`. -/
abbrev RawMessage := List Nat

/-- The Go type `Conditions`, a `map[string]Condition`, over an abstract type
`κ` of condition objects.  `Conditions{}` is `[]`. -/
abbrev Conditions (κ : Type) := List (String × κ)

/-- The methods `Conditions.MarshalJSON` and `Conditions.UnmarshalJSON`, which
are declared outside `manager_rethink.go`.  `UnmarshalJSON cs data` is the
content of the receiver map after the call, when the receiver held `cs` before
it, or the error returned. -/
structure ConditionCodec (κ : Type) where
  MarshalJSON : Conditions κ → Except Error RawMessage
  UnmarshalJSON : Conditions κ → RawMessage → Except Error (Conditions κ)

/-- The wire record `rdbSchema` (lines 14-22). -/
structure rdbSchema where
  ID : String
  Description : String
  Subjects : List String
  Effect : String
  Resources : List String
  Actions : List String
  Conditions : RawMessage
  deriving DecidableEq

/-- The fields of `DefaultPolicy` that the struct literal at lines 29-37
assigns. -/
structure DefaultPolicy (κ : Type) where
  ID : String
  Description : String
  Subjects : List String
  Effect : String
  Resources : List String
  Actions : List String
  Conditions : Conditions κ
  deriving DecidableEq

/-- Modelled from the spec: the getters of the `Policy` interface
(`GetID`, ...) are declared outside `manager_rethink.go`; each returns the
field of the same name (the policy's identifier is its `ID`). -/
def DefaultPolicy.GetID {κ : Type} (p : DefaultPolicy κ) : String := p.ID

/-- Modelled from the spec: getter for the description, see `GetID`. -/
def DefaultPolicy.GetDescription {κ : Type} (p : DefaultPolicy κ) : String := p.Description

/-- Modelled from the spec: getter for the subject patterns, see `GetID`. -/
def DefaultPolicy.GetSubjects {κ : Type} (p : DefaultPolicy κ) : List String := p.Subjects

/-- Modelled from the spec: getter for the effect, see `GetID`. -/
def DefaultPolicy.GetEffect {κ : Type} (p : DefaultPolicy κ) : String := p.Effect

/-- Modelled from the spec: getter for the resource patterns, see `GetID`. -/
def DefaultPolicy.GetResources {κ : Type} (p : DefaultPolicy κ) : List String := p.Resources

/-- Modelled from the spec: getter for the action patterns, see `GetID`. -/
def DefaultPolicy.GetActions {κ : Type} (p : DefaultPolicy κ) : List String := p.Actions

/-- Modelled from the spec: getter for the condition set, see `GetID`. -/
def DefaultPolicy.GetConditions {κ : Type} (p : DefaultPolicy κ) : Ladon.Conditions κ :=
  p.Conditions

/-- Lines 24-45.  A nil record gives a nil policy and no error; otherwise the
six plain fields are copied, the condition set starts as `Conditions{}` and is
filled by `UnmarshalJSON` from the record's payload, whose error is returned. -/
def rdbToPolicy {κ : Type} (codec : ConditionCodec κ) :
    Option rdbSchema → Except Error (Option (DefaultPolicy κ))
  | none => .ok none
  | some s =>
    match codec.UnmarshalJSON [] s.Conditions with
    | .error err => .error err
    | .ok cs =>
      .ok (some
        { ID := s.ID
          Description := s.Description
          Subjects := s.Subjects
          Effect := s.Effect
          Resources := s.Resources
          Actions := s.Actions
          Conditions := cs })

/-- Lines 47-61. -/
def rdbFromPolicy {κ : Type} (codec : ConditionCodec κ) (p : DefaultPolicy κ) :
    Except Error rdbSchema :=
  match codec.MarshalJSON p.GetConditions with
  | .error err => .error err
  | .ok cs =>
    .ok
      { ID := p.GetID
        Description := p.GetDescription
        Subjects := p.GetSubjects
        Effect := p.GetEffect
        Resources := p.GetResources
        Actions := p.GetActions
        Conditions := cs }

/-! ## The replica cache `m.Policies` -/

/-- The field `Policies map[string]Policy` (line 68).  Every value stored by
`ColdStart` and `Watch` is a non-nil `*DefaultPolicy` fresh from
`rdbToPolicy`. -/
abbrev PolicyMap (κ : Type) := List (String × DefaultPolicy κ)

/-- The Go expression `m[id]` in its two-valued form: `none` is `ok == false`. -/
def mapGet {κ : Type} : PolicyMap κ → String → Option (DefaultPolicy κ)
  | [], _ => none
  | (k, p) :: rest, id => if k = id then some p else mapGet rest id

/-- The Go builtin `delete(m, id)`. -/
def mapDelete {κ : Type} (m : PolicyMap κ) (id : String) : PolicyMap κ :=
  m.filter (fun e => decide (e.1 ≠ id))

/-- The Go assignment `m[id] = p`. -/
def mapSet {κ : Type} (m : PolicyMap κ) (id : String) (p : DefaultPolicy κ) : PolicyMap κ :=
  (id, p) :: mapDelete m id

/-- The key set of a map, as a list. -/
def mapKeys {κ : Type} (m : PolicyMap κ) : List String := m.map Prod.fst

/-! ## Bootstrap -/

/-- The loop of lines 81-87 over the records the cursor yields. -/
def coldStartLoop {κ : Type} (codec : ConditionCodec κ) :
    PolicyMap κ → List rdbSchema → PolicyMap κ × Option Error
  | m, [] => (m, none)
  | m, tbl :: rest =>
    match rdbToPolicy codec (some tbl) with
    | .error err => (m, some err)
    | .ok (some policy) => coldStartLoop codec (mapSet m tbl.ID policy) rest
    -- `&tbl` is never nil, so `rdbToPolicy` does not return a nil policy here
    | .ok none => coldStartLoop codec m rest

/-- Lines 71-90.  `m` is the cache before the call and `scan` the outcome of
`m.Table.Run(m.Session)`: an error, or the successive values that
`policies.Next` stores in `tbl` until it returns false (the cursor error is
not inspected).  Each value is taken to own its slices, so that a policy
decoded from one record is not altered when the next record is read.  The
result is the cache after the call and the returned error. -/
def ColdStart {κ : Type} (codec : ConditionCodec κ) (_m : PolicyMap κ)
    (scan : Except Error (List rdbSchema)) : PolicyMap κ × Option Error :=
  let m0 : PolicyMap κ := []
  match scan with
  | .error err => (m0, some err)
  | .ok rows => coldStartLoop codec m0 rows

/-! ## Reads -/

/-- Lines 101-111. -/
def Get {κ : Type} (m : PolicyMap κ) (id : String) : Except Error (DefaultPolicy κ) :=
  match mapGet m id with
  | none => .error "Not found"
  | some p => .ok p

/-- The external matching predicate `Match(p, patterns, subject)`. -/
abbrev Matcher (κ : Type) := DefaultPolicy κ → List String → String → Except Error Bool

/-- The loop of lines 128-135 over the entries in the order the `range`
statement visits them; `ps` is the slice built so far.  The result is the pair
returned by `FindPoliciesForSubject`. -/
def findLoop {κ : Type} (Match : Matcher κ) (subject : String) :
    List (String × DefaultPolicy κ) → List (DefaultPolicy κ) →
      List (DefaultPolicy κ) × Option Error
  | [], ps => (ps, none)
  | (_, p) :: rest, ps =>
    match Match p p.GetSubjects subject with
    | .error err => ([], some err)
    | .ok false => findLoop Match subject rest ps
    | .ok true => findLoop Match subject rest (ps ++ [p])

/-- Lines 123-137.  `order` is the sequence of entries of `m.Policies` as the
`range` statement enumerates them, a permutation of the map's entries that Go
leaves unspecified. -/
def FindPoliciesForSubject {κ : Type} (Match : Matcher κ)
    (order : List (String × DefaultPolicy κ)) (subject : String) :
    List (DefaultPolicy κ) × Option Error :=
  findLoop Match subject order []

/-! ## Change feed -/

/-- A run-time panic of the Go program. -/
abbrev Panic := String

/-- Reading through a pointer: a nil pointer dereference panics. -/
def deref {α : Type} : Option α → Except Panic α
  | some a => .ok a
  | none => .error "invalid memory address or nil pointer dereference"

/-- One decoded element of the change stream: the values of
`update["new_val"]` and `update["old_val"]`, nil when the key is missing or
null. -/
structure Update where
  new_val : Option rdbSchema
  old_val : Option rdbSchema
  deriving DecidableEq

/-- The body of the inner loop of `Watch` (lines 184-205) for one delivered
element.  A side that does not decode is logged and the element is skipped.
Each `x.GetID()` reads the identifier through the pointer `x`. -/
def watchEvent {κ : Type} (codec : ConditionCodec κ) (m : PolicyMap κ) (update : Update) :
    Except Panic (PolicyMap κ) :=
  match rdbToPolicy codec update.new_val with
  | .error _ => .ok m
  | .ok newVal =>
    match rdbToPolicy codec update.old_val with
    | .error _ => .ok m
    | .ok oldVal =>
      if newVal.isNone ∧ oldVal.isSome then
        (deref oldVal).bind fun o => .ok (mapDelete m o.GetID)
      else if newVal.isSome ∧ oldVal.isSome then
        (deref oldVal).bind fun o =>
          (deref newVal).bind fun n => .ok (mapSet (mapDelete m o.GetID) n.GetID n)
      else
        (deref newVal).bind fun n => .ok (mapSet m n.GetID n)

/-- The inner loop of `Watch` (lines 183-206) over the elements a stream
delivers before `policies.Next` returns false; a panic ends the run. -/
def watchEvents {κ : Type} (codec : ConditionCodec κ) :
    PolicyMap κ → List Update → Except Panic (PolicyMap κ)
  | m, [] => .ok m
  | m, update :: rest =>
    match watchEvent codec m update with
    | .error e => .error e
    | .ok m1 => watchEvents codec m1 rest

/-- What the loop body passes to `logrus.Error` for one element (lines 186 and
192): the decode error of the new side, else that of the old side. -/
def eventLog {κ : Type} (codec : ConditionCodec κ) (update : Update) : List Error :=
  match rdbToPolicy codec update.new_val with
  | .error err => [err]
  | .ok _ =>
    match rdbToPolicy codec update.old_val with
    | .error err => [err]
    | .ok _ => []

/-- A change stream handle: the elements `Next` has still to deliver and the
value of `Err()` once `Next` has returned false. -/
structure Cursor where
  pending : List Update
  lastErr : Option Error
  deriving DecidableEq

/-- What the methods of the driver do on a nil handle, which the source file
does not determine: they read through the receiver and panic, or they guard
the nil receiver (`Next` returns false, `Close` and `Err` return the error
`err`). -/
inductive NilCursor where
  | panics
  | guarded (err : Error)
  deriving DecidableEq

/-- The store side of the change feed.  `changes n` is the outcome of the
`n`-th call of `m.Table.Changes().Run(m.Session)` made by the consumer: a
stream handle, or an error with a nil handle. -/
structure Driver where
  onNil : NilCursor
  changes : Nat → Except Error Cursor

/-- The `ctx` argument of `Watch`: whether its cancellation signal has been
raised. -/
structure Context where
  done : Bool
  deriving DecidableEq

/-- The state of the goroutine started at line 180: the cache, the variable
`policies`, the number of resubscription attempts made, and what has been
passed to `logrus.Error`. -/
structure Consumer (κ : Type) where
  Policies : PolicyMap κ
  policies : Option Cursor
  runs : Nat
  log : List Error

/-- A method call on the handle held in `policies` when that handle is nil. -/
def onNilHandle : NilCursor → Except Panic Error
  | .panics => .error "invalid memory address or nil pointer dereference"
  | .guarded err => .ok err

/-- Lines 213-216: the resubscription attempt.  On failure the new value of
`policies` is nil and line 215 logs `policies.Err()`, a call on that nil
handle, not `err`. -/
def resubscribe {κ : Type} (driver : Driver) (c : Consumer κ) : Except Panic (Consumer κ) :=
  match driver.changes c.runs with
  | .ok cur => .ok { c with policies := some cur, runs := c.runs + 1 }
  | .error _ =>
    (onNilHandle driver.onNil).bind fun e =>
      .ok { c with policies := none, runs := c.runs + 1, log := c.log ++ [e] }

/-- One step of the loop of lines 181-217.  When `policies.Next` delivers an
element the loop body is run on it.  When it returns false (the stream has
ended, or the handle is nil and guarded) the stream is closed, a non-nil
`policies.Err()` is logged and a resubscription is attempted.  The argument
`ctx` is the one of `Watch`; the loop does not mention it. -/
def consumerStep {κ : Type} (codec : ConditionCodec κ) (driver : Driver) (_ctx : Context)
    (c : Consumer κ) : Except Panic (Consumer κ) :=
  match c.policies with
  | some cur =>
    match cur.pending with
    | update :: rest =>
      (watchEvent codec c.Policies update).bind fun m1 =>
        .ok { c with Policies := m1, policies := some { cur with pending := rest },
                     log := c.log ++ eventLog codec update }
    | [] => resubscribe driver { c with log := c.log ++ cur.lastErr.toList }
  | none =>
    (onNilHandle driver.onNil).bind fun e =>
      resubscribe driver { c with log := c.log ++ [e] }

/-- The first `n` steps of the consumer, `ctx i` being the state of the
cancellation signal at step `i`. -/
def consumerRun {κ : Type} (codec : ConditionCodec κ) (driver : Driver) (ctx : Nat → Context) :
    Nat → Consumer κ → Except Panic (Consumer κ)
  | 0, c => .ok c
  | n + 1, c =>
    (consumerRun codec driver ctx n c).bind fun c1 => consumerStep codec driver (ctx n) c1

/-- Lines 174-220.  `first` is the outcome of the subscription at line 175.
The result is the error returned to the caller and, when the subscription
succeeded, the initial state of the consumer that is left running. -/
def Watch {κ : Type} (_ctx : Context) (first : Except Error Cursor) (m : PolicyMap κ) :
    Option Error × Option (Consumer κ) :=
  match first with
  | .error err => (some err, none)
  | .ok cur => (none, some { Policies := m, policies := some cur, runs := 0, log := [] })

/-! ## Writes -/

/-- A write query sent to the store. -/
inductive StoreWrite where
  | insert (p : rdbSchema)
  | delete (id : String)
  deriving DecidableEq

/-- The outcome of `RunWrite` for a write query: the error, if any. -/
abbrev RunWrite := StoreWrite → Option Error

/-- The effect of a write operation of the manager: the cache after the call,
the write queries that were run, and the returned error. -/
structure WriteOutcome (κ : Type) where
  Policies : PolicyMap κ
  writes : List StoreWrite
  err : Option Error

/-- Lines 156-165. -/
def publishCreate {κ : Type} (codec : ConditionCodec κ) (runWrite : RunWrite)
    (m : PolicyMap κ) (policy : DefaultPolicy κ) : WriteOutcome κ :=
  match rdbFromPolicy codec policy with
  | .error err => { Policies := m, writes := [], err := some err }
  | .ok p =>
    match runWrite (.insert p) with
    | some err => { Policies := m, writes := [.insert p], err := some err }
    | none => { Policies := m, writes := [.insert p], err := none }

/-- Lines 167-172. -/
def publishDelete {κ : Type} (runWrite : RunWrite) (m : PolicyMap κ) (id : String) :
    WriteOutcome κ :=
  match runWrite (.delete id) with
  | some err => { Policies := m, writes := [.delete id], err := some err }
  | none => { Policies := m, writes := [.delete id], err := none }

/-- Lines 92-98. -/
def Create {κ : Type} (codec : ConditionCodec κ) (runWrite : RunWrite)
    (m : PolicyMap κ) (policy : DefaultPolicy κ) : WriteOutcome κ :=
  let out := publishCreate codec runWrite m policy
  match out.err with
  | some err => { out with err := some err }
  | none => { out with err := none }

/-- Lines 114-120. -/
def Delete {κ : Type} (runWrite : RunWrite) (m : PolicyMap κ) (id : String) :
    WriteOutcome κ :=
  let out := publishDelete runWrite m id
  match out.err with
  | some err => { out with err := some err }
  | none => { out with err := none }

/-- Lines 101-111 as a transition of the manager: under the read lock the map
is read and nothing is assigned, so the cache after the call is the cache
before it. -/
def GetCall {κ : Type} (m : PolicyMap κ) (id : String) :
    PolicyMap κ × Except Error (DefaultPolicy κ) :=
  (m, Get m id)

/-! ## The function `fetch` -/

/-- The zero value of `DefaultPolicy`, the initial content of the variable
declared at line 146. -/
def zeroPolicy {κ : Type} : DefaultPolicy κ :=
  { ID := "", Description := "", Subjects := [], Effect := "", Resources := [],
    Actions := [], Conditions := [] }

/-- A pointer to a `DefaultPolicy` variable. -/
abbrev Addr := Nat

/-- The address of the variable `policy` declared at line 146. -/
def policyAddr : Addr := 0

/-- The assignment `m[id] = a` on a map whose values are pointers. -/
def refSet (refs : List (String × Addr)) (id : String) (a : Addr) : List (String × Addr) :=
  (id, a) :: refs.filter (fun e => decide (e.1 ≠ id))

/-- The loop of lines 149-151.  `rows` are the successive values that
`policies.Next` decodes into the one variable `policy`; line 150 stores the
address of that variable under the identifier just decoded.  The result is
the final content of the variable and the map of pointers. -/
def fetchLoop {κ : Type} :
    DefaultPolicy κ → List (String × Addr) → List (DefaultPolicy κ) →
      DefaultPolicy κ × List (String × Addr)
  | policy, refs, [] => (policy, refs)
  | _, refs, row :: rest => fetchLoop row (refSet refs row.ID policyAddr) rest

/-- Lines 139-154.  The cache after the call is read through the stored
pointers: the only address stored is that of `policy`, so each entry reads
the final content of that variable. -/
def fetch {κ : Type} (_m : PolicyMap κ) (scan : Except Error (List (DefaultPolicy κ))) :
    PolicyMap κ × Option Error :=
  match scan with
  | .error err => ([], some err)
  | .ok rows =>
    let out := fetchLoop zeroPolicy [] rows
    (out.2.map (fun e => (e.1, out.1)), none)


/-! ## A concrete condition codec for evaluation

Condition objects are numbers.  The encoder writes the empty set as the two
bytes of the JSON text of an empty object and a single condition named `c` as
three bytes; the decoder accepts exactly these texts and, as a JSON parser
does, rejects a zero-length input. -/

/-- A sample `MarshalJSON`. -/
def sampleMarshal : Conditions Nat → Except Error RawMessage
  | [] => .ok [123, 125]
  | [(name, n)] => if name = "c" then .ok [123, n, 125] else .error "unsupported condition"
  | _ => .error "unsupported condition"

/-- A sample `UnmarshalJSON` that rejects a zero-length payload. -/
def sampleUnmarshal (cs : Conditions Nat) : RawMessage → Except Error (Conditions Nat)
  | [123, 125] => .ok cs
  | [123, n, 125] => .ok (cs ++ [("c", n)])
  | [] => .error "unexpected end of JSON input"
  | _ => .error "invalid character"

/-- The sample codec. -/
def sampleCodec : ConditionCodec Nat :=
  { MarshalJSON := sampleMarshal, UnmarshalJSON := sampleUnmarshal }

/-- A sample `UnmarshalJSON` that reads a zero-length payload as no
conditions. -/
def lenientUnmarshal (cs : Conditions Nat) : RawMessage → Except Error (Conditions Nat)
  | [] => .ok cs
  | raw => sampleUnmarshal cs raw

/-- The sample codec with the lenient decoder. -/
def lenientCodec : ConditionCodec Nat :=
  { MarshalJSON := sampleMarshal, UnmarshalJSON := lenientUnmarshal }

/-- A sample policy with one condition. -/
def policyP1 : DefaultPolicy Nat :=
  { ID := "p1", Description := "first", Subjects := ["alice"], Effect := "allow",
    Resources := ["doc"], Actions := ["read"], Conditions := [("c", 7)] }

/-- A sample policy with no conditions and empty pattern lists. -/
def policyP2 : DefaultPolicy Nat :=
  { ID := "p2", Description := "", Subjects := [], Effect := "deny",
    Resources := [], Actions := [], Conditions := [] }

/-- The wire record of `policyP1`. -/
def recordP1 : rdbSchema :=
  { ID := "p1", Description := "first", Subjects := ["alice"], Effect := "allow",
    Resources := ["doc"], Actions := ["read"], Conditions := [123, 7, 125] }

/-- The wire record of `policyP2`. -/
def recordP2 : rdbSchema :=
  { ID := "p2", Description := "", Subjects := [], Effect := "deny",
    Resources := [], Actions := [], Conditions := [123, 125] }

/-- A wire record whose conditions payload has length zero. -/
def recordEmptyPayload : rdbSchema :=
  { ID := "p3", Description := "third", Subjects := ["bob"], Effect := "allow",
    Resources := ["doc"], Actions := ["write"], Conditions := [] }

/-- A wire record whose conditions payload is not a text the sample decoder
accepts. -/
def recordBad : rdbSchema :=
  { ID := "p4", Description := "fourth", Subjects := ["eve"], Effect := "allow",
    Resources := ["doc"], Actions := ["read"], Conditions := [1] }

/-- A sample policy whose subject pattern the sample matcher cannot
compile. -/
def policyPX : DefaultPolicy Nat :=
  { ID := "px", Description := "broken pattern", Subjects := ["<"], Effect := "allow",
    Resources := ["doc"], Actions := ["read"], Conditions := [] }

/-- A sample matching predicate: a pattern list that holds an unbalanced
delimiter is an error, otherwise the subject matches when it is one of the
patterns. -/
def sampleMatch : Matcher Nat := fun _ patterns subject =>
  if patterns.contains "<" then .error "unbalanced delimiter"
  else .ok (patterns.contains subject)

/-! ## Reference notions used in the statements -/

/-- The last record of a scan that carries the identifier `id`. -/
def lastRecord : List rdbSchema → String → Option rdbSchema
  | [], _ => none
  | r :: rest, id =>
    match lastRecord rest id with
    | some r2 => some r2
    | none => if r.ID = id then some r else none

/-- Whether `Match` reports that the entry's policy matches the subject. -/
def isMatch {κ : Type} (Match : Matcher κ) (subject : String)
    (e : String × DefaultPolicy κ) : Bool :=
  match Match e.2 e.2.GetSubjects subject with
  | .ok true => true
  | _ => false

/-- The key/identifier invariant of the cache: every entry is stored under
the identifier of its policy. -/
def KeyedByID {κ : Type} (m : PolicyMap κ) : Prop :=
  ∀ e ∈ m, e.1 = e.2.GetID

/-- The policy a wire record decodes to, if it decodes. -/
def decodeRecord {κ : Type} (codec : ConditionCodec κ) (r : rdbSchema) :
    Option (DefaultPolicy κ) :=
  match rdbToPolicy codec (some r) with
  | .ok (some p) => some p
  | _ => none

/-! ### Reference model of the durable store

The store is not part of the program.  The model follows the wording of the
convergence property: a map from identifier to record with three operations,
each emitting one change event. -/

/-- The durable state: the record stored under each identifier. -/
abbrev Store := String → Option rdbSchema

/-- The operations of the store model. -/
inductive StoreOp where
  | insert (new : rdbSchema)
  | delete (id : String)
  | replace (new : rdbSchema)
  deriving DecidableEq

/-- One operation of the store model with the change event it emits: the
insert of a fresh identifier emits (absent, new), the delete of an existing
identifier emits (old, absent), the replace of an existing identifier emits
(old, new) under the same identifier.  The operation is undefined when its
precondition fails. -/
def storeStep (s : Store) : StoreOp → Option (Store × Update)
  | .insert new =>
    match s new.ID with
    | none =>
      some (fun id => if id = new.ID then some new else s id,
        { new_val := some new, old_val := none })
    | some _ => none
  | .delete id =>
    match s id with
    | some old =>
      some (fun k => if k = id then none else s k, { new_val := none, old_val := some old })
    | none => none
  | .replace new =>
    match s new.ID with
    | some old =>
      some (fun id => if id = new.ID then some new else s id,
        { new_val := some new, old_val := some old })
    | none => none

/-- A finite sequence of store operations: the final state and the emitted
events, in order. -/
def storeRun : Store → List StoreOp → Option (Store × List Update)
  | s, [] => some (s, [])
  | s, op :: rest =>
    match storeStep s op with
    | none => none
    | some (s1, ev) =>
      match storeRun s1 rest with
      | none => none
      | some (s2, evs) => some (s2, ev :: evs)

/-- The decoded store state: the policy that the record under `id` decodes
to. -/
def decodedStore {κ : Type} (codec : ConditionCodec κ) (s : Store) (id : String) :
    Option (DefaultPolicy κ) :=
  (s id).bind (decodeRecord codec)

/-- Every record is stored under its own identifier. -/
def WellKeyed (s : Store) : Prop :=
  ∀ id r, s id = some r → r.ID = id

/-- Every stored record decodes. -/
def AllDecode {κ : Type} (codec : ConditionCodec κ) (s : Store) : Prop :=
  ∀ id r, s id = some r → ∃ p, rdbToPolicy codec (some r) = .ok (some p)

/-- The record an operation writes, if any, decodes. -/
def OpDecodes {κ : Type} (codec : ConditionCodec κ) : StoreOp → Prop
  | .insert new => ∃ p, rdbToPolicy codec (some new) = .ok (some p)
  | .delete _ => True
  | .replace new => ∃ p, rdbToPolicy codec (some new) = .ok (some p)

/-- A sample store that holds the first sample record. -/
def sampleStore : Store := fun id => if id = "p1" then some recordP1 else none

/-- A sample policy whose condition set the sample encoder cannot
serialize. -/
def policyP5 : DefaultPolicy Nat :=
  { ID := "p5", Description := "fifth", Subjects := ["carol"], Effect := "allow",
    Resources := ["doc"], Actions := ["read"], Conditions := [("a", 1), ("b", 2)] }

/-- A sample `RunWrite` under which every write succeeds. -/
def writeOk : RunWrite := fun _ => none

/-- A sample `RunWrite` under which every write fails. -/
def writeFails : RunWrite := fun _ => some "connection refused"

/-- A sample driver whose resubscription attempts all fail and whose cursor
methods read through the receiver. -/
def driverDown : Driver :=
  { onNil := .panics, changes := fun _ => .error "connection refused" }

/-- A sample driver whose resubscription attempts all fail and whose cursor
methods guard a nil receiver. -/
def driverDownGuarded : Driver :=
  { onNil := .guarded "cursor is nil", changes := fun _ => .error "connection refused" }

/-- A sample driver whose resubscription attempts all succeed with a stream
that delivers the insert event of the second sample record. -/
def driverUp : Driver :=
  { onNil := .panics,
    changes := fun _ =>
      .ok { pending := [{ new_val := some recordP2, old_val := none }], lastErr := none } }

/-- A sample consumer state: the stream has ended with an error. -/
def consumerEnded : Consumer Nat :=
  { Policies := [("p1", policyP1)],
    policies := some { pending := [], lastErr := some "stream closed" },
    runs := 0, log := [] }

/-- A sample consumer state: the stream has one element to deliver, the
delete event of the first sample record. -/
def consumerPending : Consumer Nat :=
  { Policies := [("p1", policyP1)],
    policies := some { pending := [{ new_val := none, old_val := some recordP1 }],
                       lastErr := none },
    runs := 0, log := [] }

/-! ## Lemmas on the map operations -/

theorem mapGet_mapDelete {κ : Type} (m : PolicyMap κ) (k id : String) :
    mapGet (mapDelete m k) id = if k = id then none else mapGet m id := by
  induction m with
  | nil => simp [mapDelete, mapGet]
  | cons e rest ih =>
    obtain ⟨k0, p0⟩ := e
    unfold mapDelete at ih ⊢
    by_cases h0 : k0 = k
    · subst h0
      by_cases h1 : k0 = id
      · simp [List.filter_cons, mapGet, h1] at ih ⊢
        simpa [h1] using ih
      · simp [List.filter_cons, mapGet, h1] at ih ⊢
        exact ih
    · have : (decide (k0 ≠ k)) = true := by simp [h0]
      by_cases h1 : k = id
      · subst h1
        simp [List.filter_cons, mapGet, h0] at ih ⊢
        exact ih
      · simp [List.filter_cons, mapGet, h0, h1] at ih ⊢
        rw [ih]

theorem mapGet_mapSet {κ : Type} (m : PolicyMap κ) (k id : String) (p : DefaultPolicy κ) :
    mapGet (mapSet m k p) id = if k = id then some p else mapGet m id := by
  unfold mapSet
  by_cases h : k = id
  · simp [mapGet, h]
  · simp [mapGet, h, mapGet_mapDelete]

theorem mem_mapKeys_iff {κ : Type} (m : PolicyMap κ) (id : String) :
    id ∈ mapKeys m ↔ ∃ p, mapGet m id = some p := by
  induction m with
  | nil => simp [mapKeys, mapGet]
  | cons e rest ih =>
    obtain ⟨k0, p0⟩ := e
    unfold mapKeys at ih ⊢
    by_cases h : k0 = id
    · simp [mapGet, h]
    · have h2 : ¬ id = k0 := fun h3 => h h3.symm
      simp [mapGet, h, h2, ih]

theorem mapDelete_of_not_mem {κ : Type} (m : PolicyMap κ) (id : String)
    (h : id ∉ mapKeys m) : mapDelete m id = m := by
  unfold mapDelete
  rw [List.filter_eq_self]
  intro e he
  have : e.1 ≠ id := by
    intro h1
    apply h
    unfold mapKeys
    exact h1 ▸ List.mem_map_of_mem Prod.fst he
  simp [this]

theorem mapDelete_mapDelete {κ : Type} (m : PolicyMap κ) (id : String) :
    mapDelete (mapDelete m id) id = mapDelete m id := by
  unfold mapDelete
  simp [List.filter_filter]

theorem mapKeys_mapDelete {κ : Type} (m : PolicyMap κ) (id : String) :
    mapKeys (mapDelete m id) = (mapKeys m).filter (fun k => decide (k ≠ id)) := by
  unfold mapKeys mapDelete
  induction m with
  | nil => simp
  | cons e rest ih =>
    by_cases h : e.1 = id
    · simp [List.filter_cons, h] at ih ⊢
      exact ih
    · simp [List.filter_cons, h] at ih ⊢
      exact ih

theorem mapDelete_nodup {κ : Type} (m : PolicyMap κ) (id : String)
    (h : (mapKeys m).Nodup) : (mapKeys (mapDelete m id)).Nodup := by
  rw [mapKeys_mapDelete]
  exact h.filter _

theorem mapSet_nodup {κ : Type} (m : PolicyMap κ) (id : String) (p : DefaultPolicy κ)
    (h : (mapKeys m).Nodup) : (mapKeys (mapSet m id p)).Nodup := by
  have h1 := mapDelete_nodup m id h
  have h2 : id ∉ mapKeys (mapDelete m id) := by
    rw [mapKeys_mapDelete]
    simp
  unfold mapSet
  unfold mapKeys at h1 h2 ⊢
  simp only [List.map_cons, List.nodup_cons]
  exact ⟨h2, h1⟩


/-! ## The codec -/

theorem sampleCodec_roundtrip (cs : Conditions Nat) (raw : RawMessage)
    (h : sampleCodec.MarshalJSON cs = .ok raw) : sampleCodec.UnmarshalJSON [] raw = .ok cs := by
  simp only [sampleCodec] at h ⊢
  match cs, h with
  | [], h =>
    simp only [sampleMarshal, Except.ok.injEq] at h
    subst h
    rfl
  | [(name, n)], h =>
    by_cases hn : name = "c"
    · subst hn
      simp only [sampleMarshal, if_true, Except.ok.injEq] at h
      subst h
      simp [sampleUnmarshal]
    · simp [sampleMarshal, hn] at h
  | _ :: _ :: _, h =>
    simp [sampleMarshal] at h

theorem rdbToPolicy_some_ne_none {κ : Type} (codec : ConditionCodec κ) (s : rdbSchema) :
    rdbToPolicy codec (some s) ≠ .ok none := by
  unfold rdbToPolicy
  cases hu : codec.UnmarshalJSON [] s.Conditions <;> simp [hu]

theorem rdbToPolicy_ID {κ : Type} (codec : ConditionCodec κ) (s : rdbSchema)
    (p : DefaultPolicy κ) (h : rdbToPolicy codec (some s) = .ok (some p)) : p.ID = s.ID := by
  unfold rdbToPolicy at h
  cases hu : codec.UnmarshalJSON [] s.Conditions with
  | error e => simp [hu] at h
  | ok cs =>
    simp only [hu, Except.ok.injEq, Option.some.injEq] at h
    rw [← h]

/-- C1. Codec round trip: when the condition codec round-trips (a payload
written by `MarshalJSON` is read back by `UnmarshalJSON`, into an empty
receiver, as the set that was written) and the condition set of `p`
serializes, `rdbFromPolicy` succeeds with a wire record `w`, `rdbToPolicy`
succeeds on `w`, and the decoded policy is `p`: the same identifier,
description, effect, subjects, resources, actions and conditions. -/
theorem rdbToPolicy_rdbFromPolicy {κ : Type} (codec : ConditionCodec κ)
    (hcodec : ∀ cs raw, codec.MarshalJSON cs = .ok raw → codec.UnmarshalJSON [] raw = .ok cs)
    (p : DefaultPolicy κ) (raw : RawMessage) (hp : codec.MarshalJSON p.GetConditions = .ok raw) :
    ∃ w q, rdbFromPolicy codec p = .ok w ∧ rdbToPolicy codec (some w) = .ok (some q) ∧
      q.GetID = p.GetID ∧ q.GetDescription = p.GetDescription ∧ q.GetEffect = p.GetEffect ∧
      q.GetSubjects = p.GetSubjects ∧ q.GetResources = p.GetResources ∧
      q.GetActions = p.GetActions ∧ q.GetConditions = p.GetConditions ∧ q = p := by
  have hu := hcodec _ _ hp
  refine ⟨{ ID := p.GetID, Description := p.GetDescription, Subjects := p.GetSubjects,
             Effect := p.GetEffect, Resources := p.GetResources, Actions := p.GetActions,
             Conditions := raw }, p, ?_, ?_, rfl, rfl, rfl, rfl, rfl, rfl, rfl, rfl⟩
  · unfold rdbFromPolicy
    rw [hp]
  · unfold rdbToPolicy
    simp only [hu]
    rfl

/-- Witness for C1: the sample policy with one condition, and through it the
sample codec, satisfy the hypotheses, and the round trip returns the policy. -/
theorem rdbToPolicy_rdbFromPolicy_witness :
    ∃ w q, rdbFromPolicy sampleCodec policyP1 = .ok w ∧
      rdbToPolicy sampleCodec (some w) = .ok (some q) ∧
      q.GetID = policyP1.GetID ∧ q.GetDescription = policyP1.GetDescription ∧
      q.GetEffect = policyP1.GetEffect ∧
      q.GetSubjects = policyP1.GetSubjects ∧ q.GetResources = policyP1.GetResources ∧
      q.GetActions = policyP1.GetActions ∧ q.GetConditions = policyP1.GetConditions ∧
      q = policyP1 :=
  rdbToPolicy_rdbFromPolicy sampleCodec sampleCodec_roundtrip policyP1 [123, 7, 125] rfl


/-- C2, counterexample.  `rdbToPolicy` has no case for a zero-length payload:
it passes the payload to `UnmarshalJSON`, and with a decoder that rejects the
empty input, as a JSON parser does, the record is not decoded. -/
theorem rdbToPolicy_empty_payload_rejected :
    recordEmptyPayload.Conditions = [] ∧
      rdbToPolicy sampleCodec (some recordEmptyPayload) =
        .error "unexpected end of JSON input" :=
  ⟨rfl, rfl⟩

/-- C2, amended.  On a wire record whose conditions payload has length zero,
`rdbToPolicy` returns what `UnmarshalJSON` makes of the zero-length payload on
an empty receiver: its error, with no policy, when it rejects the payload; and
when it accepts the payload, no error and a policy that carries the resulting
condition set (the empty one when the decoder adds nothing) and the six other
fields of the record. -/
theorem rdbToPolicy_empty_payload {κ : Type} (codec : ConditionCodec κ) (s : rdbSchema)
    (hs : s.Conditions = []) :
    (∀ err, codec.UnmarshalJSON [] [] = .error err → rdbToPolicy codec (some s) = .error err) ∧
    (∀ cs, codec.UnmarshalJSON [] [] = .ok cs →
      ∃ p, rdbToPolicy codec (some s) = .ok (some p) ∧ p.Conditions = cs ∧
        p.ID = s.ID ∧ p.Description = s.Description ∧ p.Subjects = s.Subjects ∧
        p.Effect = s.Effect ∧ p.Resources = s.Resources ∧ p.Actions = s.Actions) := by
  constructor
  · intro err h
    unfold rdbToPolicy
    simp [hs, h]
  · intro cs h
    unfold rdbToPolicy
    simp [hs, h]

/-- Witness for C2, amended: with the lenient decoder the record with the
zero-length payload decodes to a policy without conditions. -/
theorem rdbToPolicy_empty_payload_witness :
    recordEmptyPayload.Conditions = [] ∧
      ∃ p, rdbToPolicy lenientCodec (some recordEmptyPayload) = .ok (some p) ∧
        p.Conditions = [] ∧
        p.ID = "p3" ∧ p.Description = "third" ∧ p.Subjects = ["bob"] ∧
        p.Effect = "allow" ∧ p.Resources = ["doc"] ∧ p.Actions = ["write"] :=
  ⟨rfl, (rdbToPolicy_empty_payload lenientCodec recordEmptyPayload rfl).2 [] rfl⟩


/-! ## Bootstrap -/

theorem lastRecord_some {rows : List rdbSchema} {id : String} {r : rdbSchema}
    (h : lastRecord rows id = some r) : r ∈ rows ∧ r.ID = id := by
  induction rows with
  | nil => simp [lastRecord] at h
  | cons r0 rest ih =>
    unfold lastRecord at h
    cases hl : lastRecord rest id with
    | some r2 =>
      simp only [hl, Option.some.injEq] at h
      subst h
      exact ⟨List.mem_cons_of_mem _ (ih hl).1, (ih hl).2⟩
    | none =>
      simp only [hl] at h
      by_cases h0 : r0.ID = id
      · simp only [h0, if_true, Option.some.injEq] at h
        subst h
        exact ⟨List.mem_cons_self _ _, h0⟩
      · simp [h0] at h

theorem lastRecord_none {rows : List rdbSchema} {id : String} :
    lastRecord rows id = none ↔ ∀ r ∈ rows, r.ID ≠ id := by
  induction rows with
  | nil => simp [lastRecord]
  | cons r0 rest ih =>
    unfold lastRecord
    cases hl : lastRecord rest id with
    | some r2 =>
      have := lastRecord_some hl
      simp only [false_iff, reduceCtorEq]
      intro h
      exact h r2 (List.mem_cons_of_mem _ this.1) this.2
    | none =>
      have h1 := ih.mp hl
      by_cases h0 : r0.ID = id
      · simp [h0]
      · simp only [h0, if_false, true_iff]
        intro r hr
        rcases List.mem_cons.mp hr with h2 | h2
        · rw [h2]; exact h0
        · exact h1 r h2

theorem lastRecord_of_nodup {rows : List rdbSchema} (hnd : (rows.map rdbSchema.ID).Nodup)
    {r : rdbSchema} (hr : r ∈ rows) : lastRecord rows r.ID = some r := by
  induction rows with
  | nil => simp at hr
  | cons r0 rest ih =>
    simp only [List.map_cons, List.nodup_cons] at hnd
    unfold lastRecord
    rcases List.mem_cons.mp hr with h | h
    · subst h
      have : lastRecord rest r.ID = none := by
        rw [lastRecord_none]
        intro r2 hr2 h2
        exact hnd.1 (h2 ▸ List.mem_map_of_mem rdbSchema.ID hr2)
      simp [this]
    · simp [ih hnd.2 h]

theorem coldStartLoop_ok {κ : Type} (codec : ConditionCodec κ) (rows : List rdbSchema) :
    ∀ m : PolicyMap κ, (∀ r ∈ rows, ∃ p, rdbToPolicy codec (some r) = .ok (some p)) →
      (coldStartLoop codec m rows).2 = none ∧
      ((mapKeys m).Nodup → (mapKeys (coldStartLoop codec m rows).1).Nodup) ∧
      (∀ id, lastRecord rows id = none →
        mapGet (coldStartLoop codec m rows).1 id = mapGet m id) ∧
      (∀ id r, lastRecord rows id = some r →
        ∃ p, rdbToPolicy codec (some r) = .ok (some p) ∧
          mapGet (coldStartLoop codec m rows).1 id = some p) := by
  induction rows with
  | nil =>
    intro m _
    simp [coldStartLoop, lastRecord]
  | cons r0 rest ih =>
    intro m h
    obtain ⟨p0, hp0⟩ := h r0 (List.mem_cons_self _ _)
    have hrest : ∀ r ∈ rest, ∃ p, rdbToPolicy codec (some r) = .ok (some p) :=
      fun r hr => h r (List.mem_cons_of_mem _ hr)
    have hstep : coldStartLoop codec m (r0 :: rest) =
        coldStartLoop codec (mapSet m r0.ID p0) rest := by
      simp [coldStartLoop, hp0]
    rw [hstep]
    obtain ⟨h1, h2, h3, h4⟩ := ih (mapSet m r0.ID p0) hrest
    refine ⟨h1, fun hnd => h2 (mapSet_nodup m r0.ID p0 hnd), ?_, ?_⟩
    · intro id hid
      unfold lastRecord at hid
      cases hl : lastRecord rest id with
      | some r2 => simp [hl] at hid
      | none =>
        simp only [hl] at hid
        have h0 : ¬ r0.ID = id := by
          intro h0
          simp [h0] at hid
        rw [h3 id hl, mapGet_mapSet]
        simp [h0]
    · intro id r hid
      unfold lastRecord at hid
      cases hl : lastRecord rest id with
      | some r2 =>
        simp only [hl, Option.some.injEq] at hid
        subst hid
        exact h4 id r2 hl
      | none =>
        simp only [hl] at hid
        by_cases h0 : r0.ID = id
        · simp only [h0, if_true, Option.some.injEq] at hid
          subst hid
          refine ⟨p0, hp0, ?_⟩
          rw [h3 id hl, mapGet_mapSet]
          simp [h0]
        · simp [h0] at hid


theorem Get_eq_ok_iff {κ : Type} (m : PolicyMap κ) (id : String) (p : DefaultPolicy κ) :
    Get m id = .ok p ↔ mapGet m id = some p := by
  unfold Get
  cases mapGet m id <;> simp

theorem Get_eq_error_iff {κ : Type} (m : PolicyMap κ) (id : String) :
    Get m id = .error "Not found" ↔ mapGet m id = none := by
  unfold Get
  cases mapGet m id <;> simp

/-- C3. ColdStart postcondition: whatever the cache held before, when the scan
succeeds and every scanned record decodes, `ColdStart` returns no error; the
keys of the cache are pairwise distinct and are exactly the identifiers of the
scanned records; `Get` answers `Not found` for every identifier that no
scanned record carries; for an identifier that is scanned, `Get` returns the
decoding of the last scanned record that carries it; and when the scanned
identifiers are pairwise distinct, `Get` returns, for every scanned record,
the decoding of that record. -/
theorem ColdStart_postcondition {κ : Type} (codec : ConditionCodec κ) (m : PolicyMap κ)
    (rows : List rdbSchema)
    (hrows : ∀ r ∈ rows, ∃ p, rdbToPolicy codec (some r) = .ok (some p)) :
    (ColdStart codec m (.ok rows)).2 = none ∧
    (mapKeys (ColdStart codec m (.ok rows)).1).Nodup ∧
    (∀ id, id ∈ mapKeys (ColdStart codec m (.ok rows)).1 ↔ ∃ r ∈ rows, r.ID = id) ∧
    (∀ id, (∀ r ∈ rows, r.ID ≠ id) →
      Get (ColdStart codec m (.ok rows)).1 id = .error "Not found") ∧
    (∀ id r, lastRecord rows id = some r →
      ∃ p, rdbToPolicy codec (some r) = .ok (some p) ∧
        Get (ColdStart codec m (.ok rows)).1 id = .ok p) ∧
    ((rows.map rdbSchema.ID).Nodup → ∀ r ∈ rows,
      ∃ p, rdbToPolicy codec (some r) = .ok (some p) ∧
        Get (ColdStart codec m (.ok rows)).1 r.ID = .ok p) := by
  obtain ⟨h1, h2, h3, h4⟩ := coldStartLoop_ok codec rows [] hrows
  have hC : ColdStart codec m (.ok rows) = coldStartLoop codec [] rows := rfl
  rw [hC]
  refine ⟨h1, h2 (by simp [mapKeys]), ?_, ?_, ?_, ?_⟩
  · intro id
    rw [mem_mapKeys_iff]
    cases hl : lastRecord rows id with
    | none =>
      rw [h3 id hl]
      have := lastRecord_none.mp hl
      simp only [mapGet, reduceCtorEq, exists_false, false_iff]
      rintro ⟨r, hr, hid⟩
      exact this r hr hid
    | some r =>
      obtain ⟨p, _, hp⟩ := h4 id r hl
      have := lastRecord_some hl
      exact ⟨fun _ => ⟨r, this.1, this.2⟩, fun _ => ⟨p, hp⟩⟩
  · intro id hid
    rw [Get_eq_error_iff, h3 id (lastRecord_none.mpr hid)]
    rfl
  · intro id r hl
    obtain ⟨p, hp1, hp2⟩ := h4 id r hl
    exact ⟨p, hp1, (Get_eq_ok_iff _ _ _).mpr hp2⟩
  · intro hnd r hr
    obtain ⟨p, hp1, hp2⟩ := h4 r.ID r (lastRecord_of_nodup hnd hr)
    exact ⟨p, hp1, (Get_eq_ok_iff _ _ _).mpr hp2⟩

theorem sampleRows_decode :
    ∀ r ∈ [recordP1, recordP2], ∃ p, rdbToPolicy sampleCodec (some r) = .ok (some p) := by
  intro r hr
  simp only [List.mem_cons, List.mem_singleton, List.not_mem_nil, or_false] at hr
  rcases hr with h | h
  · exact ⟨policyP1, by rw [h]; rfl⟩
  · exact ⟨policyP2, by rw [h]; rfl⟩

/-- Witness for C3: a scan of the two sample records over a cache that held a
stale entry. -/
theorem ColdStart_postcondition_witness :
    (∀ r ∈ [recordP1, recordP2], ∃ p, rdbToPolicy sampleCodec (some r) = .ok (some p)) ∧
    (ColdStart sampleCodec [("old", policyP2)] (.ok [recordP1, recordP2])).2 = none ∧
    (∀ id, id ∈ mapKeys (ColdStart sampleCodec [("old", policyP2)]
        (.ok [recordP1, recordP2])).1 ↔ ∃ r ∈ [recordP1, recordP2], r.ID = id) ∧
    Get (ColdStart sampleCodec [("old", policyP2)] (.ok [recordP1, recordP2])).1 "p1" =
      .ok policyP1 ∧
    Get (ColdStart sampleCodec [("old", policyP2)] (.ok [recordP1, recordP2])).1 "old" =
      .error "Not found" :=
  have h := ColdStart_postcondition sampleCodec [("old", policyP2)] [recordP1, recordP2]
    sampleRows_decode
  ⟨sampleRows_decode, h.1, h.2.2.1, rfl, rfl⟩


theorem first_decode_failure {κ : Type} (codec : ConditionCodec κ) (rows : List rdbSchema)
    (h : ∃ r ∈ rows, ∃ e, rdbToPolicy codec (some r) = .error e) :
    ∃ pre bad post err, rows = pre ++ bad :: post ∧
      (∀ r ∈ pre, ∃ p, rdbToPolicy codec (some r) = .ok (some p)) ∧
      rdbToPolicy codec (some bad) = .error err := by
  induction rows with
  | nil =>
    obtain ⟨r, hr, _⟩ := h
    simp at hr
  | cons r0 rest ih =>
    cases h0 : rdbToPolicy codec (some r0) with
    | error e => exact ⟨[], r0, rest, e, rfl, by simp, h0⟩
    | ok q =>
      cases q with
      | none => exact absurd h0 (rdbToPolicy_some_ne_none codec r0)
      | some p0 =>
        have hrest : ∃ r ∈ rest, ∃ e, rdbToPolicy codec (some r) = .error e := by
          obtain ⟨r, hr, e, he⟩ := h
          rcases List.mem_cons.mp hr with h1 | h1
          · subst h1
            rw [h0] at he
            simp at he
          · exact ⟨r, h1, e, he⟩
        obtain ⟨pre, bad, post, err, h1, h2, h3⟩ := ih hrest
        refine ⟨r0 :: pre, bad, post, err, by rw [h1]; rfl, ?_, h3⟩
        intro r hr
        rcases List.mem_cons.mp hr with h4 | h4
        · exact ⟨p0, h4 ▸ h0⟩
        · exact h2 r h4

theorem coldStartLoop_abort {κ : Type} (codec : ConditionCodec κ) (pre : List rdbSchema)
    (bad : rdbSchema) (post : List rdbSchema) (err : Error)
    (hbad : rdbToPolicy codec (some bad) = .error err) :
    ∀ m : PolicyMap κ, (∀ r ∈ pre, ∃ p, rdbToPolicy codec (some r) = .ok (some p)) →
      coldStartLoop codec m (pre ++ bad :: post) = ((coldStartLoop codec m pre).1, some err) := by
  induction pre with
  | nil =>
    intro m _
    simp [coldStartLoop, hbad]
  | cons r0 rest ih =>
    intro m h
    obtain ⟨p0, hp0⟩ := h r0 (List.mem_cons_self _ _)
    have hrest : ∀ r ∈ rest, ∃ p, rdbToPolicy codec (some r) = .ok (some p) :=
      fun r hr => h r (List.mem_cons_of_mem _ hr)
    simp only [List.cons_append, coldStartLoop, hp0]
    exact ih _ hrest

/-- C4, counterexample.  The scan delivers a record that decodes and then one
that does not: `ColdStart` returns the decode error, and the cache holds the
entry decoded from the first record of that scan. -/
theorem ColdStart_keeps_earlier_entries :
    rdbToPolicy sampleCodec (some recordBad) = .error "invalid character" ∧
    ColdStart sampleCodec [] (.ok [recordP1, recordBad]) =
      ([("p1", policyP1)], some "invalid character") ∧
    Get (ColdStart sampleCodec [] (.ok [recordP1, recordBad])).1 "p1" = .ok policyP1 :=
  ⟨rfl, rfl, rfl⟩

/-- C4, amended.  When some scanned record fails to decode, `ColdStart`
returns the decode error of the first such record and reads no record after
it; the prior content of the cache is gone, and the cache is left holding the
entries decoded from the records that precede the failing one: it is the
cache that a `ColdStart` over those records alone produces, and its keys are
exactly their identifiers. -/
theorem ColdStart_decode_error {κ : Type} (codec : ConditionCodec κ) (m : PolicyMap κ)
    (rows : List rdbSchema) (h : ∃ r ∈ rows, ∃ e, rdbToPolicy codec (some r) = .error e) :
    ∃ pre bad post err, rows = pre ++ bad :: post ∧
      (∀ r ∈ pre, ∃ p, rdbToPolicy codec (some r) = .ok (some p)) ∧
      rdbToPolicy codec (some bad) = .error err ∧
      ColdStart codec m (.ok rows) = ((ColdStart codec m (.ok pre)).1, some err) ∧
      (ColdStart codec m (.ok pre)).2 = none ∧
      (∀ id, id ∈ mapKeys (ColdStart codec m (.ok rows)).1 ↔ ∃ r ∈ pre, r.ID = id) ∧
      (∀ id r, lastRecord pre id = some r →
        ∃ p, rdbToPolicy codec (some r) = .ok (some p) ∧
          Get (ColdStart codec m (.ok rows)).1 id = .ok p) := by
  obtain ⟨pre, bad, post, err, h1, h2, h3⟩ := first_decode_failure codec rows h
  refine ⟨pre, bad, post, err, h1, h2, h3, ?_⟩
  have hC : ColdStart codec m (.ok rows) = ((ColdStart codec m (.ok pre)).1, some err) := by
    subst h1
    exact coldStartLoop_abort codec pre bad post err h3 [] h2
  obtain ⟨k1, _, k3, k4⟩ := coldStartLoop_ok codec pre [] h2
  have hP : ColdStart codec m (.ok pre) = coldStartLoop codec [] pre := rfl
  refine ⟨hC, by rw [hP]; exact k1, ?_, ?_⟩
  · intro id
    rw [hC, hP, mem_mapKeys_iff]
    cases hl : lastRecord pre id with
    | none =>
      show (∃ p, mapGet (coldStartLoop codec [] pre).1 id = some p) ↔ _
      rw [k3 id hl]
      have := lastRecord_none.mp hl
      simp only [mapGet, reduceCtorEq, exists_false, false_iff]
      rintro ⟨r, hr, hid⟩
      exact this r hr hid
    | some r =>
      obtain ⟨p, _, hp⟩ := k4 id r hl
      have := lastRecord_some hl
      exact ⟨fun _ => ⟨r, this.1, this.2⟩, fun _ => ⟨p, hp⟩⟩
  · intro id r hl
    obtain ⟨p, hp1, hp2⟩ := k4 id r hl
    refine ⟨p, hp1, ?_⟩
    rw [hC, hP]
    exact (Get_eq_ok_iff _ _ _).mpr hp2

/-- Witness for C4, amended: the scan of the counterexample, over a cache that
held a stale entry. -/
theorem ColdStart_decode_error_witness :
    (∃ r ∈ [recordP1, recordBad], ∃ e, rdbToPolicy sampleCodec (some r) = .error e) ∧
    ∃ pre bad post err, [recordP1, recordBad] = pre ++ bad :: post ∧
      (∀ r ∈ pre, ∃ p, rdbToPolicy sampleCodec (some r) = .ok (some p)) ∧
      rdbToPolicy sampleCodec (some bad) = .error err ∧
      ColdStart sampleCodec [("old", policyP2)] (.ok [recordP1, recordBad]) =
        ((ColdStart sampleCodec [("old", policyP2)] (.ok pre)).1, some err) ∧
      (ColdStart sampleCodec [("old", policyP2)] (.ok pre)).2 = none ∧
      (∀ id, id ∈ mapKeys (ColdStart sampleCodec [("old", policyP2)]
          (.ok [recordP1, recordBad])).1 ↔ ∃ r ∈ pre, r.ID = id) ∧
      (∀ id r, lastRecord pre id = some r →
        ∃ p, rdbToPolicy sampleCodec (some r) = .ok (some p) ∧
          Get (ColdStart sampleCodec [("old", policyP2)] (.ok [recordP1, recordBad])).1 id =
            .ok p) :=
  have h : ∃ r ∈ [recordP1, recordBad], ∃ e, rdbToPolicy sampleCodec (some r) = .error e :=
    ⟨recordBad, by simp, "invalid character", rfl⟩
  ⟨h, ColdStart_decode_error sampleCodec [("old", policyP2)] [recordP1, recordBad] h⟩


/-! ## Subject search -/

theorem findLoop_ok {κ : Type} (Match : Matcher κ) (subject : String)
    (order : List (String × DefaultPolicy κ)) :
    ∀ ps : List (DefaultPolicy κ),
      (∀ e ∈ order, ∃ b, Match e.2 e.2.GetSubjects subject = .ok b) →
      findLoop Match subject order ps =
        (ps ++ (order.filter (isMatch Match subject)).map Prod.snd, none) := by
  induction order with
  | nil =>
    intro ps _
    simp [findLoop]
  | cons e rest ih =>
    intro ps h
    obtain ⟨k, p⟩ := e
    obtain ⟨b, hb⟩ := h (k, p) (List.mem_cons_self _ _)
    have hrest : ∀ e ∈ rest, ∃ b, Match e.2 e.2.GetSubjects subject = .ok b :=
      fun e he => h e (List.mem_cons_of_mem _ he)
    simp only at hb
    cases b with
    | false =>
      have hm : isMatch Match subject (k, p) = false := by simp [isMatch, hb]
      simp only [findLoop, hb, List.filter_cons, hm]
      exact ih ps hrest
    | true =>
      have hm : isMatch Match subject (k, p) = true := by simp [isMatch, hb]
      simp only [findLoop, hb, List.filter_cons, hm, if_true, List.map_cons]
      rw [ih (ps ++ [p]) hrest]
      simp

theorem findLoop_error {κ : Type} (Match : Matcher κ) (subject : String)
    (order : List (String × DefaultPolicy κ)) :
    ∀ ps : List (DefaultPolicy κ),
      (∃ e ∈ order, ∃ err, Match e.2 e.2.GetSubjects subject = .error err) →
      ∃ e ∈ order, ∃ err, Match e.2 e.2.GetSubjects subject = .error err ∧
        findLoop Match subject order ps = ([], some err) := by
  induction order with
  | nil =>
    intro ps h
    obtain ⟨e, he, _⟩ := h
    simp at he
  | cons e rest ih =>
    intro ps h
    obtain ⟨k, p⟩ := e
    cases hb : Match p p.GetSubjects subject with
    | error err =>
      exact ⟨(k, p), List.mem_cons_self _ _, err, hb, by simp [findLoop, hb]⟩
    | ok b =>
      have hrest : ∃ e ∈ rest, ∃ err, Match e.2 e.2.GetSubjects subject = .error err := by
        obtain ⟨e, he, err, herr⟩ := h
        rcases List.mem_cons.mp he with h1 | h1
        · subst h1
          simp only at herr
          rw [hb] at herr
          simp at herr
        · exact ⟨e, h1, err, herr⟩
      cases b with
      | false =>
        obtain ⟨e, he, err, h1, h2⟩ := ih ps hrest
        exact ⟨e, List.mem_cons_of_mem _ he, err, h1, by simp only [findLoop, hb]; exact h2⟩
      | true =>
        obtain ⟨e, he, err, h1, h2⟩ := ih (ps ++ [p]) hrest
        exact ⟨e, List.mem_cons_of_mem _ he, err, h1, by simp only [findLoop, hb]; exact h2⟩

theorem isMatch_iff {κ : Type} (Match : Matcher κ) (subject : String)
    (e : String × DefaultPolicy κ) :
    isMatch Match subject e = true ↔ Match e.2 e.2.GetSubjects subject = .ok true := by
  unfold isMatch
  cases h : Match e.2 e.2.GetSubjects subject with
  | error err => simp
  | ok b => cases b <;> simp

/-- C5. FindPoliciesForSubject, success case: when `Match` returns no error on
any cached policy, then for every order `order` in which the cache `m` is
iterated the call returns no error; its result is the sequence of the matching
policies in iteration order, which holds every cached entry whose policy
matches exactly once and nothing else (it is a permutation of the matching
entries of the cache); and it is the empty sequence when no cached policy
matches. -/
theorem FindPoliciesForSubject_success {κ : Type} (Match : Matcher κ)
    (m order : PolicyMap κ) (subject : String) (hperm : order.Perm m)
    (hok : ∀ e ∈ m, ∃ b, Match e.2 e.2.GetSubjects subject = .ok b) :
    (FindPoliciesForSubject Match order subject).2 = none ∧
    (FindPoliciesForSubject Match order subject).1 =
      (order.filter (isMatch Match subject)).map Prod.snd ∧
    (FindPoliciesForSubject Match order subject).1.Perm
      ((m.filter (isMatch Match subject)).map Prod.snd) ∧
    (∀ p, p ∈ (FindPoliciesForSubject Match order subject).1 ↔
      ∃ e ∈ m, e.2 = p ∧ Match p p.GetSubjects subject = .ok true) ∧
    ((∀ e ∈ m, Match e.2 e.2.GetSubjects subject = .ok false) →
      FindPoliciesForSubject Match order subject = ([], none)) := by
  have hok2 : ∀ e ∈ order, ∃ b, Match e.2 e.2.GetSubjects subject = .ok b :=
    fun e he => hok e (hperm.mem_iff.mp he)
  have hF : FindPoliciesForSubject Match order subject =
      ((order.filter (isMatch Match subject)).map Prod.snd, none) := by
    unfold FindPoliciesForSubject
    rw [findLoop_ok Match subject order [] hok2]
    simp
  have hP : ((order.filter (isMatch Match subject)).map Prod.snd).Perm
      ((m.filter (isMatch Match subject)).map Prod.snd) :=
    (hperm.filter _).map _
  rw [hF]
  refine ⟨rfl, rfl, hP, ?_, ?_⟩
  · intro p
    simp only [hP.mem_iff, List.mem_map, List.mem_filter]
    constructor
    · rintro ⟨e, ⟨he, hm⟩, rfl⟩
      exact ⟨e, he, rfl, (isMatch_iff Match subject e).mp hm⟩
    · rintro ⟨e, he, rfl, hm⟩
      exact ⟨e, ⟨he, (isMatch_iff Match subject e).mpr hm⟩, rfl⟩
  · intro hnone
    have : order.filter (isMatch Match subject) = [] := by
      rw [List.filter_eq_nil_iff]
      intro e he
      have h1 := hnone e (hperm.mem_iff.mp he)
      simp [isMatch, h1]
    rw [this]
    rfl


theorem sampleCache_match_ok :
    ∀ e ∈ [("p1", policyP1), ("p2", policyP2)],
      ∃ b, sampleMatch e.2 e.2.GetSubjects "alice" = .ok b := by
  intro e he
  simp only [List.mem_cons, List.mem_singleton, List.not_mem_nil, or_false] at he
  rcases he with h | h
  · exact ⟨true, by rw [h]; rfl⟩
  · exact ⟨false, by rw [h]; rfl⟩

/-- Witness for C5: a cache of two policies iterated in the reverse order; one
policy matches the subject. -/
theorem FindPoliciesForSubject_success_witness :
    [("p2", policyP2), ("p1", policyP1)].Perm [("p1", policyP1), ("p2", policyP2)] ∧
    (∀ e ∈ [("p1", policyP1), ("p2", policyP2)],
      ∃ b, sampleMatch e.2 e.2.GetSubjects "alice" = .ok b) ∧
    FindPoliciesForSubject sampleMatch [("p2", policyP2), ("p1", policyP1)] "alice" =
      ([policyP1], none) ∧
    (FindPoliciesForSubject sampleMatch [("p2", policyP2), ("p1", policyP1)] "alice").1.Perm
      (([("p1", policyP1), ("p2", policyP2)].filter (isMatch sampleMatch "alice")).map
        Prod.snd) :=
  have h := FindPoliciesForSubject_success sampleMatch [("p1", policyP1), ("p2", policyP2)]
    [("p2", policyP2), ("p1", policyP1)] "alice" (List.Perm.swap _ _ _) sampleCache_match_ok
  ⟨List.Perm.swap _ _ _, sampleCache_match_ok, rfl, h.2.2.1⟩

/-- C6. FindPoliciesForSubject, error case: when `Match` returns an error for
at least one cached policy, then for every order in which the cache is
iterated the call returns an error, one that `Match` returned for a cached
policy, and the policy sequence returned with it is empty. -/
theorem FindPoliciesForSubject_error {κ : Type} (Match : Matcher κ)
    (m order : PolicyMap κ) (subject : String) (hperm : order.Perm m)
    (herr : ∃ e ∈ m, ∃ err, Match e.2 e.2.GetSubjects subject = .error err) :
    ∃ e ∈ m, ∃ err, Match e.2 e.2.GetSubjects subject = .error err ∧
      FindPoliciesForSubject Match order subject = ([], some err) := by
  have herr2 : ∃ e ∈ order, ∃ err, Match e.2 e.2.GetSubjects subject = .error err := by
    obtain ⟨e, he, h⟩ := herr
    exact ⟨e, hperm.mem_iff.mpr he, h⟩
  obtain ⟨e, he, err, h1, h2⟩ := findLoop_error Match subject order [] herr2
  exact ⟨e, hperm.mem_iff.mp he, err, h1, h2⟩

/-- Witness for C6: the matching policy is visited before the policy on which
the matcher fails, and the result is the error with an empty sequence. -/
theorem FindPoliciesForSubject_error_witness :
    [("p1", policyP1), ("px", policyPX)].Perm [("px", policyPX), ("p1", policyP1)] ∧
    sampleMatch policyP1 policyP1.GetSubjects "alice" = .ok true ∧
    (∃ e ∈ [("px", policyPX), ("p1", policyP1)], ∃ err,
      sampleMatch e.2 e.2.GetSubjects "alice" = .error err ∧
      FindPoliciesForSubject sampleMatch [("p1", policyP1), ("px", policyPX)] "alice" =
        ([], some err)) ∧
    FindPoliciesForSubject sampleMatch [("p1", policyP1), ("px", policyPX)] "alice" =
      ([], some "unbalanced delimiter") :=
  ⟨List.Perm.swap _ _ _, rfl,
    FindPoliciesForSubject_error sampleMatch [("px", policyPX), ("p1", policyP1)]
      [("p1", policyP1), ("px", policyPX)] "alice" (List.Perm.swap _ _ _)
      ⟨("px", policyPX), by simp, "unbalanced delimiter", rfl⟩,
    rfl⟩


/-! ## Change feed -/

theorem rdbToPolicy_isSome {κ : Type} (codec : ConditionCodec κ) (s : Option rdbSchema)
    (v : Option (DefaultPolicy κ)) (h : rdbToPolicy codec s = .ok v) : v.isSome = s.isSome := by
  cases s with
  | none =>
    simp only [rdbToPolicy, Except.ok.injEq] at h
    subst h
    rfl
  | some r =>
    cases v with
    | none => exact absurd h (rdbToPolicy_some_ne_none codec r)
    | some p => rfl

/-- C7. Event application on the three non-empty shapes.  When both sides of
a change event decode (a side is absent after decoding exactly when it is
absent in the event), applying the event to a cache `m` does not fault, and
the cache after it is: `m` with `new.id` mapped to `new` when only the new
side is present; `m` with `old.id` removed when only the old side is present;
and `m` with `old.id` removed and then `new.id` mapped to `new` when both are
present.  In each case every other identifier keeps the entry it had. -/
theorem watchEvent_shapes {κ : Type} (codec : ConditionCodec κ) (m : PolicyMap κ)
    (update : Update) (newVal oldVal : Option (DefaultPolicy κ))
    (hnew : rdbToPolicy codec update.new_val = .ok newVal)
    (hold : rdbToPolicy codec update.old_val = .ok oldVal) :
    (newVal.isSome = update.new_val.isSome ∧ oldVal.isSome = update.old_val.isSome) ∧
    (∀ n, newVal = some n → oldVal = none →
      ∃ m1, watchEvent codec m update = .ok m1 ∧ m1 = mapSet m n.ID n ∧
        ∀ id, mapGet m1 id = if id = n.ID then some n else mapGet m id) ∧
    (∀ o, newVal = none → oldVal = some o →
      ∃ m1, watchEvent codec m update = .ok m1 ∧ m1 = mapDelete m o.ID ∧
        ∀ id, mapGet m1 id = if id = o.ID then none else mapGet m id) ∧
    (∀ n o, newVal = some n → oldVal = some o →
      ∃ m1, watchEvent codec m update = .ok m1 ∧ m1 = mapSet (mapDelete m o.ID) n.ID n ∧
        ∀ id, mapGet m1 id =
          if id = n.ID then some n else if id = o.ID then none else mapGet m id) := by
  refine ⟨⟨rdbToPolicy_isSome codec _ _ hnew, rdbToPolicy_isSome codec _ _ hold⟩, ?_, ?_, ?_⟩
  · intro n h1 h2
    subst h1 h2
    refine ⟨_, ?_, rfl, ?_⟩
    · simp [watchEvent, hnew, hold, deref, Except.bind, DefaultPolicy.GetID]
    · intro id
      rw [mapGet_mapSet]
      by_cases h : id = n.ID
      · simp [h]
      · have h2 : ¬ n.ID = id := fun h3 => h h3.symm
        simp [h, h2]
  · intro o h1 h2
    subst h1 h2
    refine ⟨_, ?_, rfl, ?_⟩
    · simp [watchEvent, hnew, hold, deref, Except.bind, DefaultPolicy.GetID]
    · intro id
      rw [mapGet_mapDelete]
      by_cases h : id = o.ID
      · simp [h]
      · have h2 : ¬ o.ID = id := fun h3 => h h3.symm
        simp [h, h2]
  · intro n o h1 h2
    subst h1 h2
    refine ⟨_, ?_, rfl, ?_⟩
    · simp [watchEvent, hnew, hold, deref, Except.bind, DefaultPolicy.GetID]
    · intro id
      rw [mapGet_mapSet, mapGet_mapDelete]
      by_cases h : id = n.ID
      · simp [h]
      · have h2 : ¬ n.ID = id := fun h3 => h h3.symm
        by_cases h4 : id = o.ID
        · subst h4
          simp [h, h2]
        · have h5 : ¬ o.ID = id := fun h3 => h4 h3.symm
          simp [h, h2, h4, h5]

/-- Witness for C7: an update event whose sides carry different identifiers
renames the entry. -/
theorem watchEvent_shapes_witness :
    rdbToPolicy sampleCodec (some recordP2) = .ok (some policyP2) ∧
    rdbToPolicy sampleCodec (some recordP1) = .ok (some policyP1) ∧
    ∃ m1, watchEvent sampleCodec [("p1", policyP1), ("px", policyPX)]
        { new_val := some recordP2, old_val := some recordP1 } = .ok m1 ∧
      m1 = mapSet (mapDelete [("p1", policyP1), ("px", policyPX)] policyP1.ID)
        policyP2.ID policyP2 ∧
      ∀ id, mapGet m1 id =
        if id = policyP2.ID then some policyP2 else if id = policyP1.ID then none
        else mapGet [("p1", policyP1), ("px", policyPX)] id :=
  ⟨rfl, rfl,
    (watchEvent_shapes sampleCodec [("p1", policyP1), ("px", policyPX)]
      { new_val := some recordP2, old_val := some recordP1 } (some policyP2) (some policyP1)
      rfl rfl).2.2.2 policyP2 policyP1 rfl rfl⟩


/-- C8. A change event with both sides absent is not ignored by the code: both
sides decode to nil, neither of the two tests before the final `else` holds,
and the `else` branch reads the identifier through the nil `newVal`.  For
every cache the step ends in a nil-pointer panic instead of leaving the cache
as it was and going on to the next event. -/
theorem watchEvent_both_absent {κ : Type} (codec : ConditionCodec κ) (m : PolicyMap κ) :
    watchEvent codec m { new_val := none, old_val := none } =
      .error "invalid memory address or nil pointer dereference" ∧
    watchEvent codec m { new_val := none, old_val := none } ≠ .ok m := by
  have h : watchEvent codec m { new_val := none, old_val := none } =
      .error "invalid memory address or nil pointer dereference" := by
    simp [watchEvent, rdbToPolicy, deref, Except.bind]
  rw [h]
  simp

/-- C9. A delete event (new side absent, old side present) whose old
identifier is not a key of the cache leaves the cache unchanged, whether or
not the old side decodes. -/
theorem watchEvent_delete_absent {κ : Type} (codec : ConditionCodec κ) (m : PolicyMap κ)
    (update : Update) (r : rdbSchema) (hnew : update.new_val = none)
    (hold : update.old_val = some r) (hkey : r.ID ∉ mapKeys m) :
    watchEvent codec m update = .ok m := by
  unfold watchEvent
  rw [hnew, hold]
  cases h : rdbToPolicy codec (some r) with
  | error e => simp [rdbToPolicy]
  | ok q =>
    cases q with
    | none => exact absurd h (rdbToPolicy_some_ne_none codec r)
    | some o =>
      have hid : o.ID = r.ID := rdbToPolicy_ID codec r o h
      simp only [rdbToPolicy, Option.isNone_none, Option.isSome_some, and_self, if_true,
        deref, Except.bind, DefaultPolicy.GetID, hid]
      rw [mapDelete_of_not_mem m r.ID hkey]

/-- Witness for C9: a delete event for an identifier the cache does not
hold. -/
theorem watchEvent_delete_absent_witness :
    recordP2.ID ∉ mapKeys [("p1", policyP1)] ∧
    watchEvent sampleCodec [("p1", policyP1)] { new_val := none, old_val := some recordP2 } =
      .ok [("p1", policyP1)] :=
  ⟨by decide,
    watchEvent_delete_absent sampleCodec [("p1", policyP1)]
      { new_val := none, old_val := some recordP2 } recordP2 rfl rfl (by decide)⟩

theorem filter_key_mapDelete {κ : Type} (m : PolicyMap κ) (id : String) :
    (mapDelete m id).filter (fun e => decide (e.1 = id)) = [] := by
  unfold mapDelete
  rw [List.filter_filter, List.filter_eq_nil_iff]
  intro e _
  by_cases h : e.1 = id <;> simp [h]

/-- C10. An insert event (old side absent, new side present and decoding to
`n`) applied twice in succession yields the same cache as applied once, and
that cache holds exactly one entry for the identifier of `n`, which is `n`;
every other identifier keeps the entry it had. -/
theorem watchEvent_insert_twice {κ : Type} (codec : ConditionCodec κ) (m : PolicyMap κ)
    (update : Update) (n : DefaultPolicy κ) (hold : update.old_val = none)
    (hnew : rdbToPolicy codec update.new_val = .ok (some n)) :
    ∃ m1, watchEvent codec m update = .ok m1 ∧ watchEvent codec m1 update = .ok m1 ∧
      m1.filter (fun e => decide (e.1 = n.GetID)) = [(n.GetID, n)] ∧
      Get m1 n.GetID = .ok n ∧
      ∀ id, id ≠ n.GetID → mapGet m1 id = mapGet m id := by
  have hstep : ∀ m0 : PolicyMap κ, watchEvent codec m0 update = .ok (mapSet m0 n.ID n) := by
    intro m0
    unfold watchEvent
    rw [hnew, hold]
    simp [rdbToPolicy, deref, Except.bind, DefaultPolicy.GetID]
  refine ⟨mapSet m n.ID n, hstep m, ?_, ?_, ?_, ?_⟩
  · rw [hstep]
    have : mapSet (mapSet m n.ID n) n.ID n = mapSet m n.ID n := by
      simp [mapSet, mapDelete, List.filter_cons, List.filter_filter]
    rw [this]
  · show (mapSet m n.ID n).filter (fun e => decide (e.1 = n.ID)) = [(n.ID, n)]
    unfold mapSet
    rw [List.filter_cons, filter_key_mapDelete]
    simp
  · rw [Get_eq_ok_iff]
    show mapGet (mapSet m n.ID n) n.ID = some n
    rw [mapGet_mapSet]
    simp
  · intro id hid
    rw [mapGet_mapSet]
    have h2 : ¬ n.ID = id := fun h3 => hid h3.symm
    simp [h2]

/-- Witness for C10: the insert event for the second sample policy, applied to
a cache that already holds an entry under its identifier. -/
theorem watchEvent_insert_twice_witness :
    rdbToPolicy sampleCodec (some recordP2) = .ok (some policyP2) ∧
    ∃ m1, watchEvent sampleCodec [("p1", policyP1), ("p2", policyPX)]
        { new_val := some recordP2, old_val := none } = .ok m1 ∧
      watchEvent sampleCodec m1 { new_val := some recordP2, old_val := none } = .ok m1 ∧
      m1.filter (fun e => decide (e.1 = policyP2.GetID)) = [(policyP2.GetID, policyP2)] ∧
      Get m1 policyP2.GetID = .ok policyP2 ∧
      ∀ id, id ≠ policyP2.GetID →
        mapGet m1 id = mapGet [("p1", policyP1), ("p2", policyPX)] id :=
  ⟨rfl,
    watchEvent_insert_twice sampleCodec [("p1", policyP1), ("p2", policyPX)]
      { new_val := some recordP2, old_val := none } policyP2 rfl rfl⟩

/-! ## Writes -/

theorem Create_Policies {κ : Type} (codec : ConditionCodec κ) (runWrite : RunWrite)
    (m : PolicyMap κ) (policy : DefaultPolicy κ) :
    (Create codec runWrite m policy).Policies = m := by
  unfold Create publishCreate
  cases rdbFromPolicy codec policy with
  | error e => rfl
  | ok w => cases h : runWrite (.insert w) <;> simp [h]

theorem Delete_Policies {κ : Type} (runWrite : RunWrite) (m : PolicyMap κ) (id : String) :
    (Delete runWrite m id : WriteOutcome κ).Policies = m := by
  unfold Delete publishDelete
  cases h : runWrite (.delete id) <;> simp [h]

/-- C11. Create and Delete never touch the replica cache: whatever the cache
holds and whatever the outcome of the store write, the cache after
`Create(policy)` and after `Delete(id)` is the cache before the call.  Hence
`Get` on a newly created identifier still answers `Not found`, and answers
with the decoded policy only once the insert event has been applied; and
`Get` on a just-deleted identifier still returns its policy, and answers
`Not found` only once the delete event has been applied. -/
theorem Create_Delete_frame {κ : Type} (codec : ConditionCodec κ) (runWrite : RunWrite)
    (m : PolicyMap κ) (policy : DefaultPolicy κ) (id : String) :
    (Create codec runWrite m policy).Policies = m ∧
    (Delete runWrite m id : WriteOutcome κ).Policies = m ∧
    (policy.GetID ∉ mapKeys m →
      Get (Create codec runWrite m policy).Policies policy.GetID = .error "Not found") ∧
    (∀ w n, rdbFromPolicy codec policy = .ok w → rdbToPolicy codec (some w) = .ok (some n) →
      ∃ m1, watchEvent codec (Create codec runWrite m policy).Policies
          { new_val := some w, old_val := none } = .ok m1 ∧
        Get m1 policy.GetID = .ok n) ∧
    (∀ p, mapGet m id = some p →
      Get (Delete runWrite m id : WriteOutcome κ).Policies id = .ok p) ∧
    (∀ r o, r.ID = id → rdbToPolicy codec (some r) = .ok (some o) →
      ∃ m1, watchEvent codec (Delete runWrite m id : WriteOutcome κ).Policies
          { new_val := none, old_val := some r } = .ok m1 ∧
        Get m1 id = .error "Not found") := by
  rw [Create_Policies, Delete_Policies]
  refine ⟨rfl, rfl, ?_, ?_, ?_, ?_⟩
  · intro h
    rw [Get_eq_error_iff]
    cases hg : mapGet m policy.GetID with
    | none => rfl
    | some p => exact absurd ((mem_mapKeys_iff m _).mpr ⟨p, hg⟩) h
  · intro w n hw hn
    have hid : n.ID = policy.GetID := by
      rw [rdbToPolicy_ID codec w n hn]
      unfold rdbFromPolicy at hw
      cases hm : codec.MarshalJSON policy.GetConditions with
      | error e => simp [hm] at hw
      | ok raw =>
        simp only [hm, Except.ok.injEq] at hw
        rw [← hw]
    refine ⟨mapSet m n.ID n, ?_, ?_⟩
    · unfold watchEvent
      simp only [hn]
      simp [rdbToPolicy, deref, Except.bind, DefaultPolicy.GetID]
    · rw [Get_eq_ok_iff, ← hid, mapGet_mapSet]
      simp
  · intro p hp
    exact (Get_eq_ok_iff _ _ _).mpr hp
  · intro r o hr ho
    have hid : o.ID = id := by rw [rdbToPolicy_ID codec r o ho, hr]
    refine ⟨mapDelete m o.ID, ?_, ?_⟩
    · unfold watchEvent
      simp only [ho]
      simp [rdbToPolicy, deref, Except.bind, DefaultPolicy.GetID]
    · rw [Get_eq_error_iff, hid, mapGet_mapDelete]
      simp

/-- Witness for C11: a create whose store write succeeds, on a cache that does
not hold the identifier, and a delete of an identifier the cache holds. -/
theorem Create_Delete_frame_witness :
    policyP2.GetID ∉ mapKeys [("p1", policyP1)] ∧
    (Create sampleCodec writeOk [("p1", policyP1)] policyP2).err = none ∧
    (Create sampleCodec writeOk [("p1", policyP1)] policyP2).Policies = [("p1", policyP1)] ∧
    Get (Create sampleCodec writeOk [("p1", policyP1)] policyP2).Policies policyP2.GetID =
      .error "Not found" ∧
    (∃ m1, watchEvent sampleCodec (Create sampleCodec writeOk [("p1", policyP1)] policyP2).Policies
        { new_val := some recordP2, old_val := none } = .ok m1 ∧
      Get m1 policyP2.GetID = .ok policyP2) ∧
    Get (Delete writeOk [("p1", policyP1)] "p1" : WriteOutcome Nat).Policies "p1" =
      .ok policyP1 :=
  have h := Create_Delete_frame sampleCodec writeOk [("p1", policyP1)] policyP2 "p1"
  ⟨by decide, rfl, h.1, h.2.2.1 (by decide), h.2.2.2.1 recordP2 policyP2 rfl rfl,
    h.2.2.2.2.1 policyP1 rfl⟩

/-! ## Streams of events -/

theorem watchEvent_skip {κ : Type} (codec : ConditionCodec κ) (m : PolicyMap κ) (bad : Update)
    (hbad : (∃ e, rdbToPolicy codec bad.new_val = .error e) ∨
      (∃ e, rdbToPolicy codec bad.old_val = .error e)) :
    watchEvent codec m bad = .ok m := by
  unfold watchEvent
  cases hn : rdbToPolicy codec bad.new_val with
  | error e => rfl
  | ok newVal =>
    rcases hbad with ⟨e, he⟩ | ⟨e, he⟩
    · rw [hn] at he
      simp at he
    · simp [he]

theorem watchEvents_append {κ : Type} (codec : ConditionCodec κ) (pre post : List Update) :
    ∀ m : PolicyMap κ, watchEvents codec m (pre ++ post) =
      (watchEvents codec m pre).bind fun m1 => watchEvents codec m1 post := by
  induction pre with
  | nil =>
    intro m
    rfl
  | cons u rest ih =>
    intro m
    simp only [List.cons_append, watchEvents]
    cases watchEvent codec m u with
    | error e => rfl
    | ok m1 => exact ih m1

/-- C12. A change event of which either side fails to decode is skipped as a
whole: the cache after it is the cache before it, also when the other side
decodes, and a stream that delivers the event between the events `pre` and
`post` leaves the consumer where the stream without it does. -/
theorem watchEvents_skip_undecodable {κ : Type} (codec : ConditionCodec κ) (m : PolicyMap κ)
    (pre post : List Update) (bad : Update)
    (hbad : (∃ e, rdbToPolicy codec bad.new_val = .error e) ∨
      (∃ e, rdbToPolicy codec bad.old_val = .error e)) :
    watchEvent codec m bad = .ok m ∧
    watchEvents codec m (bad :: post) = watchEvents codec m post ∧
    watchEvents codec m (pre ++ bad :: post) = watchEvents codec m (pre ++ post) := by
  have h1 : ∀ m0 : PolicyMap κ, watchEvents codec m0 (bad :: post) = watchEvents codec m0 post := by
    intro m0
    simp only [watchEvents, watchEvent_skip codec m0 bad hbad]
  refine ⟨watchEvent_skip codec m bad hbad, h1 m, ?_⟩
  rw [watchEvents_append, watchEvents_append]
  cases watchEvents codec m pre with
  | error e => rfl
  | ok m1 => exact h1 m1

/-- Witness for C12: an update event whose old side decodes and whose new side
does not, between a delete and an insert. -/
theorem watchEvents_skip_undecodable_witness :
    rdbToPolicy sampleCodec (some recordBad) = .error "invalid character" ∧
    rdbToPolicy sampleCodec (some recordP1) = .ok (some policyP1) ∧
    watchEvent sampleCodec [("p1", policyP1)]
      { new_val := some recordBad, old_val := some recordP1 } = .ok [("p1", policyP1)] ∧
    watchEvents sampleCodec [("p1", policyP1)]
      ([{ new_val := none, old_val := some recordP1 }] ++
        { new_val := some recordBad, old_val := some recordP1 } ::
        [{ new_val := some recordP2, old_val := none }]) =
      watchEvents sampleCodec [("p1", policyP1)]
        ([{ new_val := none, old_val := some recordP1 }] ++
          [{ new_val := some recordP2, old_val := none }]) :=
  have h := watchEvents_skip_undecodable sampleCodec [("p1", policyP1)]
    [{ new_val := none, old_val := some recordP1 }]
    [{ new_val := some recordP2, old_val := none }]
    { new_val := some recordBad, old_val := some recordP1 }
    (Or.inl ⟨"invalid character", rfl⟩)
  ⟨rfl, rfl, h.1, h.2.2⟩

/-! ## Reads -/

/-- C13. Get serves strictly from the cache: it returns the policy stored
under `id`, with no error, when `id` is a key; it returns an error and no
policy exactly when `id` is not a key, and the error is `Not found`; the
cache after the call is the cache before it; and after an insert event for a
policy `p` has been applied, `Get` on the identifier of `p` returns `p`. -/
theorem Get_serves_cache {κ : Type} (codec : ConditionCodec κ) (m : PolicyMap κ)
    (id : String) :
    (∀ p, mapGet m id = some p → Get m id = .ok p) ∧
    (id ∈ mapKeys m → ∃ p, Get m id = .ok p ∧ (id, p) ∈ m) ∧
    ((∃ e, Get m id = .error e) ↔ id ∉ mapKeys m) ∧
    (∀ e, Get m id = .error e → e = "Not found") ∧
    (GetCall m id).1 = m ∧
    (∀ update p, update.old_val = none → rdbToPolicy codec update.new_val = .ok (some p) →
      ∃ m1, watchEvent codec m update = .ok m1 ∧ Get m1 p.GetID = .ok p) := by
  refine ⟨fun p hp => (Get_eq_ok_iff _ _ _).mpr hp, ?_, ?_, ?_, rfl, ?_⟩
  · intro h
    obtain ⟨p, hp⟩ := (mem_mapKeys_iff m id).mp h
    refine ⟨p, (Get_eq_ok_iff _ _ _).mpr hp, ?_⟩
    clear h
    induction m with
    | nil => simp [mapGet] at hp
    | cons e rest ih =>
      obtain ⟨k0, p0⟩ := e
      by_cases h0 : k0 = id
      · simp only [mapGet, h0, if_true, Option.some.injEq] at hp
        subst hp h0
        exact List.mem_cons_self _ _
      · simp only [mapGet, h0, if_false] at hp
        exact List.mem_cons_of_mem _ (ih hp)
  · rw [mem_mapKeys_iff]
    unfold Get
    cases mapGet m id <;> simp
  · intro e he
    unfold Get at he
    cases hg : mapGet m id with
    | none =>
      simp only [hg, Except.error.injEq] at he
      exact he.symm
    | some p => simp [hg] at he
  · intro update p hold hnew
    refine ⟨mapSet m p.ID p, ?_, ?_⟩
    · unfold watchEvent
      rw [hnew, hold]
      simp [rdbToPolicy, deref, Except.bind, DefaultPolicy.GetID]
    · rw [Get_eq_ok_iff]
      show mapGet (mapSet m p.ID p) p.ID = some p
      rw [mapGet_mapSet]
      simp

/-- Witness for C13: reads of a present and of an absent identifier, and a
read after an insert event. -/
theorem Get_serves_cache_witness :
    Get [("p1", policyP1)] "p1" = .ok policyP1 ∧
    ((∃ e, Get [("p1", policyP1)] "p2" = .error e) ↔ "p2" ∉ mapKeys [("p1", policyP1)]) ∧
    Get [("p1", policyP1)] "p2" = .error "Not found" ∧
    (∃ m1, watchEvent sampleCodec [("p1", policyP1)]
        { new_val := some recordP2, old_val := none } = .ok m1 ∧
      Get m1 policyP2.GetID = .ok policyP2) :=
  have h := Get_serves_cache sampleCodec [("p1", policyP1)] "p1"
  have h2 := Get_serves_cache sampleCodec [("p1", policyP1)] "p2"
  ⟨h.1 policyP1 rfl, h2.2.2.1, rfl,
    h.2.2.2.2.2 { new_val := some recordP2, old_val := none } policyP2 rfl rfl⟩

/-! ## Encoding and create -/

/-- C14. `rdbFromPolicy` fails if and only if serializing the condition set of
the policy fails, and then with the same error; when it succeeds, the six
plain fields of the wire record are those of the policy and its conditions
field is the serialized payload.  Consequently `Create` returns an error
exactly when the serialization fails or the store insert fails; in the former
case no write is sent to the store, and otherwise exactly one insert, of the
wire record, whose outcome is the result of `Create`. -/
theorem rdbFromPolicy_Create_errors {κ : Type} (codec : ConditionCodec κ) (runWrite : RunWrite)
    (m : PolicyMap κ) (policy : DefaultPolicy κ) :
    (∀ e, rdbFromPolicy codec policy = .error e ↔
      codec.MarshalJSON policy.GetConditions = .error e) ∧
    (∀ raw, codec.MarshalJSON policy.GetConditions = .ok raw →
      ∃ w, rdbFromPolicy codec policy = .ok w ∧ w.ID = policy.GetID ∧
        w.Description = policy.GetDescription ∧ w.Effect = policy.GetEffect ∧
        w.Subjects = policy.GetSubjects ∧ w.Resources = policy.GetResources ∧
        w.Actions = policy.GetActions ∧ w.Conditions = raw) ∧
    ((∃ e, (Create codec runWrite m policy).err = some e) ↔
      ((∃ e, codec.MarshalJSON policy.GetConditions = .error e) ∨
        ∃ w e, rdbFromPolicy codec policy = .ok w ∧ runWrite (.insert w) = some e)) ∧
    ((∃ e, codec.MarshalJSON policy.GetConditions = .error e) →
      (Create codec runWrite m policy).writes = []) ∧
    (∀ w, rdbFromPolicy codec policy = .ok w →
      (Create codec runWrite m policy).writes = [.insert w] ∧
      (Create codec runWrite m policy).err = runWrite (.insert w)) := by
  refine ⟨?_, ?_, ?_, ?_, ?_⟩
  · intro e
    unfold rdbFromPolicy
    cases codec.MarshalJSON policy.GetConditions <;> simp
  · intro raw h
    unfold rdbFromPolicy
    simp [h]
  · unfold Create publishCreate rdbFromPolicy
    cases codec.MarshalJSON policy.GetConditions with
    | error e0 => simp
    | ok raw =>
      simp only [reduceCtorEq, exists_false, false_or, Except.ok.injEq, exists_eq_left']
      cases hw : runWrite (.insert _) <;> simp [hw]
  · rintro ⟨e, he⟩
    unfold Create publishCreate rdbFromPolicy
    simp [he]
  · intro w hw
    unfold Create publishCreate
    rw [hw]
    cases hr : runWrite (.insert w) <;> simp [hr]

/-- Witness for C14: a policy whose conditions do not serialize is rejected
without a store write, and a failing store insert is reported. -/
theorem rdbFromPolicy_Create_errors_witness :
    sampleCodec.MarshalJSON policyP5.GetConditions = .error "unsupported condition" ∧
    rdbFromPolicy sampleCodec policyP5 = .error "unsupported condition" ∧
    (Create sampleCodec writeOk [] policyP5).writes = [] ∧
    (Create sampleCodec writeOk [] policyP5).err = some "unsupported condition" ∧
    rdbFromPolicy sampleCodec policyP1 = .ok recordP1 ∧
    (Create sampleCodec writeFails [] policyP1).writes = [.insert recordP1] ∧
    (Create sampleCodec writeFails [] policyP1).err = some "connection refused" :=
  have h5 := rdbFromPolicy_Create_errors sampleCodec writeOk [] policyP5
  have h1 := rdbFromPolicy_Create_errors sampleCodec writeFails [] policyP1
  ⟨rfl, (h5.1 "unsupported condition").mpr rfl, h5.2.2.2.1 ⟨"unsupported condition", rfl⟩,
    rfl, rfl, (h1.2.2.2.2 recordP1 rfl).1, (h1.2.2.2.2 recordP1 rfl).2⟩

/-! ## The consumer loop -/

/-- C15. The consumer does not survive a failed resubscription as the claim
says.  The stream has ended with an error and the resubscription attempt
fails, returning an error and a nil handle.  Line 215 then calls `Err()` on
the nil handle instead of logging `err`: with cursor methods that read
through the receiver the consumer ends in a nil-pointer panic; with cursor
methods that guard a nil receiver the consumer goes on, calling `Next`,
`Close` and `Err` on the nil handle at every further round and logging the
error of the nil handle, never the error of the failed attempt.  After a
successful attempt the consumer proceeds on the new stream. -/
theorem consumerStep_failed_resubscription :
    driverDown.changes consumerEnded.runs = .error "connection refused" ∧
    consumerStep sampleCodec driverDown { done := false } consumerEnded =
      .error "invalid memory address or nil pointer dereference" ∧
    (∃ c1, consumerStep sampleCodec driverDownGuarded { done := false } consumerEnded = .ok c1 ∧
      c1.Policies = consumerEnded.Policies ∧ c1.policies = none ∧ c1.runs = 1 ∧
      c1.log = ["stream closed", "cursor is nil"] ∧
      ∃ c2, consumerStep sampleCodec driverDownGuarded { done := false } c1 = .ok c2 ∧
        c2.policies = none ∧ c2.runs = 2 ∧
        c2.log = ["stream closed", "cursor is nil", "cursor is nil", "cursor is nil"]) ∧
    (∃ c1, consumerStep sampleCodec driverUp { done := false } consumerEnded = .ok c1 ∧
      c1.policies =
        some { pending := [{ new_val := some recordP2, old_val := none }], lastErr := none } ∧
      c1.runs = 1 ∧ c1.log = ["stream closed"]) :=
  ⟨rfl, rfl, ⟨_, rfl, rfl, rfl, rfl, rfl, ⟨_, rfl, rfl, rfl, rfl⟩⟩, ⟨_, rfl, rfl, rfl, rfl⟩⟩

theorem consumerRun_ctx {κ : Type} (codec : ConditionCodec κ) (driver : Driver)
    (ctx1 ctx2 : Nat → Context) (c : Consumer κ) :
    ∀ n, consumerRun codec driver ctx1 n c = consumerRun codec driver ctx2 n c := by
  intro n
  induction n with
  | zero => rfl
  | succ k ih =>
    simp only [consumerRun, ih]
    rfl

/-- C16, counterexample.  With the cancellation signal raised, the consumer
still applies the next change event to the cache (the entry is deleted), still
attempts a resubscription when the stream has ended, and goes on applying the
events of the new stream. -/
theorem consumerStep_after_cancellation :
    (∃ c1, consumerStep sampleCodec driverUp { done := true } consumerPending = .ok c1 ∧
      consumerPending.Policies = [("p1", policyP1)] ∧ c1.Policies = []) ∧
    (∃ c1, consumerStep sampleCodec driverUp { done := true } consumerEnded = .ok c1 ∧
      c1.runs = consumerEnded.runs + 1 ∧
      c1.policies =
        some { pending := [{ new_val := some recordP2, old_val := none }], lastErr := none }) ∧
    (∃ c3, consumerRun sampleCodec driverUp (fun _ => { done := true }) 3 consumerPending =
        .ok c3 ∧ c3.Policies = [("p2", policyP2)] ∧ c3.runs = 1) :=
  ⟨⟨_, rfl, rfl, rfl⟩, ⟨_, rfl, rfl, rfl⟩, ⟨_, rfl, rfl, rfl⟩⟩

/-- C16, amended.  The consumer started by `Watch(ctx)` does not read `ctx`:
what `Watch` returns and starts, each step of the consumer, and every finite
run of it are the same whatever the state of the cancellation signal, at the
start and at each step. -/
theorem consumer_ignores_ctx {κ : Type} (codec : ConditionCodec κ) (driver : Driver)
    (first : Except Error Cursor) (m : PolicyMap κ) (c : Consumer κ)
    (ctx ctx0 : Context) (ctx1 ctx2 : Nat → Context) (n : Nat) :
    Watch ctx first m = Watch ctx0 first m ∧
    consumerStep codec driver ctx c = consumerStep codec driver ctx0 c ∧
    consumerRun codec driver ctx1 n c = consumerRun codec driver ctx2 n c :=
  ⟨rfl, rfl, consumerRun_ctx codec driver ctx1 ctx2 c n⟩

/-! ## Convergence with the store -/

theorem decodeRecord_eq {κ : Type} (codec : ConditionCodec κ) (r : rdbSchema)
    (p : DefaultPolicy κ) (h : rdbToPolicy codec (some r) = .ok (some p)) :
    decodeRecord codec r = some p := by
  unfold decodeRecord
  rw [h]

theorem watchEvent_insert {κ : Type} (codec : ConditionCodec κ) (m : PolicyMap κ)
    (r : rdbSchema) (n : DefaultPolicy κ) (hn : rdbToPolicy codec (some r) = .ok (some n)) :
    watchEvent codec m { new_val := some r, old_val := none } = .ok (mapSet m n.ID n) := by
  unfold watchEvent
  simp only [hn]
  simp [rdbToPolicy, deref, Except.bind, DefaultPolicy.GetID]

theorem watchEvent_delete {κ : Type} (codec : ConditionCodec κ) (m : PolicyMap κ)
    (r : rdbSchema) (o : DefaultPolicy κ) (ho : rdbToPolicy codec (some r) = .ok (some o)) :
    watchEvent codec m { new_val := none, old_val := some r } = .ok (mapDelete m o.ID) := by
  unfold watchEvent
  simp only [ho]
  simp [rdbToPolicy, deref, Except.bind, DefaultPolicy.GetID]

theorem watchEvent_update {κ : Type} (codec : ConditionCodec κ) (m : PolicyMap κ)
    (rn ro : rdbSchema) (n o : DefaultPolicy κ)
    (hn : rdbToPolicy codec (some rn) = .ok (some n))
    (ho : rdbToPolicy codec (some ro) = .ok (some o)) :
    watchEvent codec m { new_val := some rn, old_val := some ro } =
      .ok (mapSet (mapDelete m o.ID) n.ID n) := by
  unfold watchEvent
  simp only [hn, ho]
  simp [deref, Except.bind, DefaultPolicy.GetID]

theorem storeStep_agrees {κ : Type} (codec : ConditionCodec κ) (s s1 : Store) (op : StoreOp)
    (ev : Update) (m : PolicyMap κ) (hkey : WellKeyed s) (hdec : AllDecode codec s)
    (hop : OpDecodes codec op) (hstep : storeStep s op = some (s1, ev))
    (hm : ∀ id, mapGet m id = decodedStore codec s id) :
    WellKeyed s1 ∧ AllDecode codec s1 ∧
      ∃ m1, watchEvent codec m ev = .ok m1 ∧ ∀ id, mapGet m1 id = decodedStore codec s1 id := by
  cases op with
  | insert new =>
    obtain ⟨p, hp⟩ := hop
    have hpid : p.ID = new.ID := rdbToPolicy_ID codec new p hp
    unfold storeStep at hstep
    cases hs : s new.ID with
    | some old => simp [hs] at hstep
    | none =>
      simp only [hs, Option.some.injEq, Prod.mk.injEq] at hstep
      obtain ⟨h1, h2⟩ := hstep
      subst h1 h2
      refine ⟨?_, ?_, mapSet m p.ID p, watchEvent_insert codec m new p hp, ?_⟩
      · intro id r hr
        by_cases h : id = new.ID
        · simp only [h, if_true, Option.some.injEq] at hr
          rw [← hr, h]
        · simp only [h, if_false] at hr
          exact hkey id r hr
      · intro id r hr
        by_cases h : id = new.ID
        · simp only [h, if_true, Option.some.injEq] at hr
          exact ⟨p, hr ▸ hp⟩
        · simp only [h, if_false] at hr
          exact hdec id r hr
      · intro id
        rw [mapGet_mapSet, hpid]
        unfold decodedStore
        by_cases h : id = new.ID
        · subst h
          simp [decodeRecord_eq codec new p hp]
        · have h2 : ¬ new.ID = id := fun h3 => h h3.symm
          simp only [h, h2, if_false]
          exact hm id
  | delete id0 =>
    unfold storeStep at hstep
    cases hs : s id0 with
    | none => simp [hs] at hstep
    | some old =>
      simp only [hs, Option.some.injEq, Prod.mk.injEq] at hstep
      obtain ⟨h1, h2⟩ := hstep
      subst h1 h2
      obtain ⟨o, ho⟩ := hdec id0 old hs
      have hoid : o.ID = id0 := by rw [rdbToPolicy_ID codec old o ho, hkey id0 old hs]
      refine ⟨?_, ?_, mapDelete m o.ID, watchEvent_delete codec m old o ho, ?_⟩
      · intro id r hr
        by_cases h : id = id0
        · simp [h] at hr
        · simp only [h, if_false] at hr
          exact hkey id r hr
      · intro id r hr
        by_cases h : id = id0
        · simp [h] at hr
        · simp only [h, if_false] at hr
          exact hdec id r hr
      · intro id
        rw [mapGet_mapDelete, hoid]
        unfold decodedStore
        by_cases h : id = id0
        · subst h
          simp
        · have h2 : ¬ id0 = id := fun h3 => h h3.symm
          simp only [h, h2, if_false]
          exact hm id
  | replace new =>
    obtain ⟨p, hp⟩ := hop
    have hpid : p.ID = new.ID := rdbToPolicy_ID codec new p hp
    unfold storeStep at hstep
    cases hs : s new.ID with
    | none => simp [hs] at hstep
    | some old =>
      simp only [hs, Option.some.injEq, Prod.mk.injEq] at hstep
      obtain ⟨h1, h2⟩ := hstep
      subst h1 h2
      obtain ⟨o, ho⟩ := hdec new.ID old hs
      have hoid : o.ID = new.ID := by rw [rdbToPolicy_ID codec old o ho, hkey new.ID old hs]
      refine ⟨?_, ?_, mapSet (mapDelete m o.ID) p.ID p,
        watchEvent_update codec m new old p o hp ho, ?_⟩
      · intro id r hr
        by_cases h : id = new.ID
        · simp only [h, if_true, Option.some.injEq] at hr
          rw [← hr, h]
        · simp only [h, if_false] at hr
          exact hkey id r hr
      · intro id r hr
        by_cases h : id = new.ID
        · simp only [h, if_true, Option.some.injEq] at hr
          exact ⟨p, hr ▸ hp⟩
        · simp only [h, if_false] at hr
          exact hdec id r hr
      · intro id
        rw [mapGet_mapSet, mapGet_mapDelete, hpid, hoid]
        unfold decodedStore
        by_cases h : id = new.ID
        · subst h
          simp [decodeRecord_eq codec new p hp]
        · have h2 : ¬ new.ID = id := fun h3 => h h3.symm
          simp only [h, h2, if_false]
          exact hm id

theorem storeRun_agrees {κ : Type} (codec : ConditionCodec κ) (ops : List StoreOp) :
    ∀ (s s2 : Store) (evs : List Update) (m : PolicyMap κ),
      WellKeyed s → AllDecode codec s → (∀ op ∈ ops, OpDecodes codec op) →
      storeRun s ops = some (s2, evs) → (∀ id, mapGet m id = decodedStore codec s id) →
      ∃ m2, watchEvents codec m evs = .ok m2 ∧ ∀ id, mapGet m2 id = decodedStore codec s2 id := by
  induction ops with
  | nil =>
    intro s s2 evs m _ _ _ hrun hm
    simp only [storeRun, Option.some.injEq, Prod.mk.injEq] at hrun
    obtain ⟨h1, h2⟩ := hrun
    subst h1 h2
    exact ⟨m, rfl, hm⟩
  | cons op rest ih =>
    intro s s2 evs m hkey hdec hops hrun hm
    unfold storeRun at hrun
    cases hstep : storeStep s op with
    | none => simp [hstep] at hrun
    | some out =>
      obtain ⟨s1, ev⟩ := out
      simp only [hstep] at hrun
      cases hrest : storeRun s1 rest with
      | none => simp [hrest] at hrun
      | some out2 =>
        obtain ⟨s3, evs3⟩ := out2
        simp only [hrest, Option.some.injEq, Prod.mk.injEq] at hrun
        obtain ⟨h1, h2⟩ := hrun
        subst h1 h2
        obtain ⟨hkey1, hdec1, m1, hev, hm1⟩ :=
          storeStep_agrees codec s s1 op ev m hkey hdec (hops op (List.mem_cons_self _ _))
            hstep hm
        obtain ⟨m2, hevs, hm2⟩ := ih s1 s3 evs3 m1 hkey1 hdec1
          (fun o ho => hops o (List.mem_cons_of_mem _ ho)) hrest hm1
        refine ⟨m2, ?_, hm2⟩
        simp only [watchEvents, hev]
        exact hevs

theorem ColdStart_agrees {κ : Type} (codec : ConditionCodec κ) (s : Store) (m0 : PolicyMap κ)
    (scan : List rdbSchema) (hkey : WellKeyed s) (hdec : AllDecode codec s)
    (hscan : ∀ r, r ∈ scan ↔ s r.ID = some r) :
    (ColdStart codec m0 (.ok scan)).2 = none ∧
      ∀ id, mapGet (ColdStart codec m0 (.ok scan)).1 id = decodedStore codec s id := by
  have hrows : ∀ r ∈ scan, ∃ p, rdbToPolicy codec (some r) = .ok (some p) :=
    fun r hr => hdec r.ID r ((hscan r).mp hr)
  obtain ⟨h1, _, h3, h4⟩ := coldStartLoop_ok codec scan [] hrows
  have hC : ColdStart codec m0 (.ok scan) = coldStartLoop codec [] scan := rfl
  rw [hC]
  refine ⟨h1, ?_⟩
  intro id
  unfold decodedStore
  cases hl : lastRecord scan id with
  | none =>
    rw [h3 id hl]
    cases hs : s id with
    | none => rfl
    | some r =>
      have hid : r.ID = id := hkey id r hs
      have hmem : r ∈ scan := (hscan r).mpr (by rw [hid]; exact hs)
      exact absurd hid (lastRecord_none.mp hl r hmem)
  | some r =>
    obtain ⟨p, hp1, hp2⟩ := h4 id r hl
    obtain ⟨hmem, hid⟩ := lastRecord_some hl
    have hs : s id = some r := by
      have := (hscan r).mp hmem
      rw [hid] at this
      exact this
    rw [hp2, hs]
    simp [decodeRecord_eq codec r p hp1]

/-- C17. Convergence with the durable store.  Let the store hold every record
under its own identifier, let every stored record and every record written by
an operation decode, and let a finite sequence of store operations (insert of
a fresh identifier, delete or replace of an existing one) lead from the state
`s` to the state `s2` while emitting the events `evs`.  Then a cache that
equals the decoded state `s`, entry for entry, and has the events applied in
order equals the decoded state `s2`; and such a cache is what a `ColdStart`
over a scan of `s` produces, whatever the cache held before and in whatever
order the scan delivers the records. -/
theorem store_convergence {κ : Type} (codec : ConditionCodec κ) (s s2 : Store)
    (ops : List StoreOp) (evs : List Update) (hkey : WellKeyed s) (hdec : AllDecode codec s)
    (hops : ∀ op ∈ ops, OpDecodes codec op) (hrun : storeRun s ops = some (s2, evs)) :
    (∀ m : PolicyMap κ, (∀ id, mapGet m id = decodedStore codec s id) →
      ∃ m2, watchEvents codec m evs = .ok m2 ∧
        ∀ id, mapGet m2 id = decodedStore codec s2 id) ∧
    (∀ (m0 : PolicyMap κ) (scan : List rdbSchema), (∀ r, r ∈ scan ↔ s r.ID = some r) →
      (ColdStart codec m0 (.ok scan)).2 = none ∧
      (∀ id, mapGet (ColdStart codec m0 (.ok scan)).1 id = decodedStore codec s id) ∧
      ∃ m2, watchEvents codec (ColdStart codec m0 (.ok scan)).1 evs = .ok m2 ∧
        ∀ id, mapGet m2 id = decodedStore codec s2 id) := by
  constructor
  · intro m hm
    exact storeRun_agrees codec ops s s2 evs m hkey hdec hops hrun hm
  · intro m0 scan hscan
    obtain ⟨h1, h2⟩ := ColdStart_agrees codec s m0 scan hkey hdec hscan
    exact ⟨h1, h2, storeRun_agrees codec ops s s2 evs _ hkey hdec hops hrun h2⟩

theorem sampleStore_wellKeyed : WellKeyed sampleStore := by
  intro id r h
  unfold sampleStore at h
  by_cases h1 : id = "p1"
  · simp only [h1, if_true, Option.some.injEq] at h
    rw [← h, h1]
    rfl
  · simp [h1] at h

theorem sampleStore_allDecode : AllDecode sampleCodec sampleStore := by
  intro id r h
  unfold sampleStore at h
  by_cases h1 : id = "p1"
  · simp only [h1, if_true, Option.some.injEq] at h
    exact ⟨policyP1, by rw [← h]; rfl⟩
  · simp [h1] at h

theorem sampleOps_decode :
    ∀ op ∈ [StoreOp.insert recordP2, StoreOp.delete "p1"], OpDecodes sampleCodec op := by
  intro op hop
  simp only [List.mem_cons, List.mem_singleton, List.not_mem_nil, or_false] at hop
  rcases hop with h | h
  · rw [h]
    exact ⟨policyP2, rfl⟩
  · rw [h]
    trivial

theorem sampleScan_covers : ∀ r, r ∈ [recordP1] ↔ sampleStore r.ID = some r := by
  intro r
  unfold sampleStore
  constructor
  · intro h
    simp only [List.mem_singleton] at h
    rw [h]
    rfl
  · intro h
    by_cases h1 : r.ID = "p1"
    · simp only [h1, if_true, Option.some.injEq] at h
      simp [h]
    · simp [h1] at h

/-- Witness for C17: the store holds the first sample record; the second is
inserted and the first deleted; the cache comes from a `ColdStart` over a
cache with a stale entry. -/
theorem store_convergence_witness :
    ∃ s2 evs, storeRun sampleStore [StoreOp.insert recordP2, StoreOp.delete "p1"] =
        some (s2, evs) ∧
      evs = [{ new_val := some recordP2, old_val := none },
             { new_val := none, old_val := some recordP1 }] ∧
      (ColdStart sampleCodec [("old", policyPX)] (.ok [recordP1])).2 = none ∧
      ∃ m2, watchEvents sampleCodec (ColdStart sampleCodec [("old", policyPX)]
          (.ok [recordP1])).1 evs = .ok m2 ∧
        ∀ id, mapGet m2 id = decodedStore sampleCodec s2 id :=
  have h := (store_convergence sampleCodec sampleStore _ _ _ sampleStore_wellKeyed
    sampleStore_allDecode sampleOps_decode rfl).2 [("old", policyPX)] [recordP1]
    sampleScan_covers
  ⟨_, _, rfl, rfl, h.1, h.2.2⟩

/-! ## The key/identifier invariant -/

theorem mapGet_mem {κ : Type} (m : PolicyMap κ) (id : String) (p : DefaultPolicy κ)
    (h : mapGet m id = some p) : (id, p) ∈ m := by
  induction m with
  | nil => simp [mapGet] at h
  | cons e rest ih =>
    obtain ⟨k0, p0⟩ := e
    by_cases h0 : k0 = id
    · simp only [mapGet, h0, if_true, Option.some.injEq] at h
      subst h h0
      exact List.mem_cons_self _ _
    · simp only [mapGet, h0, if_false] at h
      exact List.mem_cons_of_mem _ (ih h)

theorem KeyedByID_mapDelete {κ : Type} (m : PolicyMap κ) (id : String) (h : KeyedByID m) :
    KeyedByID (mapDelete m id) := by
  intro e he
  unfold mapDelete at he
  exact h e (List.mem_filter.mp he).1

theorem KeyedByID_mapSet {κ : Type} (m : PolicyMap κ) (p : DefaultPolicy κ) (h : KeyedByID m) :
    KeyedByID (mapSet m p.ID p) := by
  intro e he
  unfold mapSet at he
  rcases List.mem_cons.mp he with h1 | h1
  · rw [h1]
    rfl
  · exact KeyedByID_mapDelete m p.ID h e h1

theorem KeyedByID_coldStartLoop {κ : Type} (codec : ConditionCodec κ) (rows : List rdbSchema) :
    ∀ m : PolicyMap κ, KeyedByID m → KeyedByID (coldStartLoop codec m rows).1 := by
  induction rows with
  | nil =>
    intro m h
    exact h
  | cons tbl rest ih =>
    intro m h
    unfold coldStartLoop
    cases hd : rdbToPolicy codec (some tbl) with
    | error e => exact h
    | ok q =>
      cases q with
      | none => exact ih m h
      | some policy =>
        have hid : policy.ID = tbl.ID := rdbToPolicy_ID codec tbl policy hd
        simp only
        rw [← hid]
        exact ih _ (KeyedByID_mapSet m policy h)

theorem KeyedByID_watchEvent {κ : Type} (codec : ConditionCodec κ) (m m1 : PolicyMap κ)
    (update : Update) (h : KeyedByID m) (hev : watchEvent codec m update = .ok m1) :
    KeyedByID m1 := by
  unfold watchEvent at hev
  cases hn : rdbToPolicy codec update.new_val with
  | error e =>
    simp only [hn, Except.ok.injEq] at hev
    exact hev ▸ h
  | ok newVal =>
    cases ho : rdbToPolicy codec update.old_val with
    | error e =>
      simp only [hn, ho, Except.ok.injEq] at hev
      exact hev ▸ h
    | ok oldVal =>
      simp only [hn, ho] at hev
      cases newVal with
      | none =>
        cases oldVal with
        | none => simp [deref, Except.bind] at hev
        | some o =>
          simp [deref, Except.bind, DefaultPolicy.GetID] at hev
          exact hev ▸ KeyedByID_mapDelete m o.ID h
      | some n =>
        cases oldVal with
        | none =>
          simp [deref, Except.bind, DefaultPolicy.GetID] at hev
          exact hev ▸ KeyedByID_mapSet m n h
        | some o =>
          simp [deref, Except.bind, DefaultPolicy.GetID] at hev
          exact hev ▸ KeyedByID_mapSet _ n (KeyedByID_mapDelete m o.ID h)

/-- C18. Key/identifier invariant: every cache entry is stored under the
identifier of its policy.  The invariant holds after every `ColdStart`,
whether the scan failed, a record failed to decode, or the call succeeded,
and whatever the cache held before; it is preserved by every change event
that `Watch` applies, among them the insert, delete and update shapes; and
under it a `Get(id)` that succeeds returns a policy whose identifier is
`id`. -/
theorem KeyedByID_invariant {κ : Type} (codec : ConditionCodec κ) (m : PolicyMap κ) :
    (∀ scan, KeyedByID (ColdStart codec m scan).1) ∧
    (∀ update m1, KeyedByID m → watchEvent codec m update = .ok m1 → KeyedByID m1) ∧
    (∀ id p, KeyedByID m → Get m id = .ok p → p.GetID = id) := by
  refine ⟨?_, ?_, ?_⟩
  · intro scan
    cases scan with
    | error e =>
      intro e0 he
      simp [ColdStart] at he
    | ok rows =>
      have hC : ColdStart codec m (.ok rows) = coldStartLoop codec [] rows := rfl
      rw [hC]
      exact KeyedByID_coldStartLoop codec rows [] (fun e he => by simp at he)
  · intro update m1 h hev
    exact KeyedByID_watchEvent codec m m1 update h hev
  · intro id p h hg
    have := h (id, p) (mapGet_mem m id p ((Get_eq_ok_iff _ _ _).mp hg))
    exact this.symm

theorem sampleCache_keyed : KeyedByID [("p1", policyP1)] := by
  intro e he
  simp only [List.mem_singleton] at he
  rw [he]
  rfl

/-- Witness for C18: an aborted `ColdStart`, an update event that renames the
entry of a keyed cache, and a read from it. -/
theorem KeyedByID_invariant_witness :
    KeyedByID [("p1", policyP1)] ∧
    (ColdStart sampleCodec [("p1", policyP1)] (.ok [recordP2, recordBad])).2 =
      some "invalid character" ∧
    KeyedByID (ColdStart sampleCodec [("p1", policyP1)] (.ok [recordP2, recordBad])).1 ∧
    watchEvent sampleCodec [("p1", policyP1)]
      { new_val := some recordP2, old_val := some recordP1 } = .ok [("p2", policyP2)] ∧
    KeyedByID [("p2", policyP2)] ∧
    Get [("p1", policyP1)] "p1" = .ok policyP1 ∧ policyP1.GetID = "p1" :=
  have h := KeyedByID_invariant sampleCodec [("p1", policyP1)]
  ⟨sampleCache_keyed, rfl, h.1 _, rfl,
    h.2.1 { new_val := some recordP2, old_val := some recordP1 } _ sampleCache_keyed rfl,
    rfl, h.2.2 "p1" policyP1 sampleCache_keyed rfl⟩

/-! ## The function `fetch` -/

theorem fetchLoop_last {κ : Type} (rows : List (DefaultPolicy κ)) (r : DefaultPolicy κ) :
    ∀ (policy : DefaultPolicy κ) (refs : List (String × Addr)),
      (fetchLoop policy refs (rows ++ [r])).1 = r := by
  induction rows with
  | nil =>
    intro policy refs
    rfl
  | cons r0 rest ih =>
    intro policy refs
    simp only [List.cons_append, fetchLoop]
    exact ih _ _

theorem fetch_values {κ : Type} (m : PolicyMap κ) (rows : List (DefaultPolicy κ))
    (r : DefaultPolicy κ) (e : String × DefaultPolicy κ)
    (he : e ∈ (fetch m (.ok (rows ++ [r]))).1) : e.2 = r := by
  unfold fetch at he
  simp only [List.mem_map] at he
  obtain ⟨e0, _, h⟩ := he
  rw [← h]
  exact fetchLoop_last rows r _ _

/-- C19. The postcondition fails for `fetch`.  Over a scan of two records with
distinct identifiers the cache gets one entry per identifier, but line 150
stores under each identifier the address of the one variable that every
record is decoded into: after the loop each entry reads the last record, so
the entry under the first identifier is not the first record and does not
carry that identifier. -/
theorem fetch_aliases_decode_target :
    fetch [] (.ok [policyP1, policyP2]) = ([("p2", policyP2), ("p1", policyP2)], none) ∧
    mapKeys (fetch [] (.ok [policyP1, policyP2])).1 = ["p2", "p1"] ∧
    Get (fetch [] (.ok [policyP1, policyP2])).1 "p1" = .ok policyP2 ∧
    policyP2 ≠ policyP1 ∧ policyP2.GetID ≠ "p1" :=
  ⟨rfl, rfl, rfl, by decide, by decide⟩

end Ladon
